import Mathlib

/-!
Verification development for the JSON value-tree core of `ppb`
(`src/ppb-cli/vendor/cJSON.c`, `src/ppb-cli/vendor/cJSON.h`).

The C code is shallowly embedded:
* byte buffers are `List Nat` (byte values); the C string convention that the
  buffer is followed by a terminating NUL byte (and, conceptually, by further
  zero bytes) is modelled by reading with `List.headD _ 0` and by treating the
  end of the list as an unbounded run of zero bytes;
* C pointers into the buffer are suffixes of the list;
* `double` arithmetic is modelled by exact rational arithmetic (`ℚ`); every
  concrete input used in a theorem below keeps all intermediate values inside
  the range where IEEE-754 double arithmetic is exact, so the model agrees
  with the C code on those inputs;
* the C `int` field `valueint` is modelled as `Option Int`: the conversion
  `(int)n` is defined (truncation toward zero) exactly when the integral part
  fits in a signed 32-bit `int`, and otherwise yields an unspecified value
  (C11 6.3.1.4 / Annex F), modelled as `none`;
* allocation is modelled by an allocation-state `ASt` holding a counter of
  fresh ids and the multiset of currently live allocation ids; `malloc` never
  fails in the model (out-of-memory paths are not modelled).
-/

namespace PPB

/-! ### Type constants, from cJSON.h -/

def cJSON_False : Nat := 1
def cJSON_True : Nat := 2
def cJSON_NULL : Nat := 4
def cJSON_Number : Nat := 8
def cJSON_String : Nat := 16
def cJSON_Array : Nat := 32
def cJSON_Object : Nat := 64
def cJSON_IsReference : Nat := 256
def cJSON_StringIsConst : Nat := 512
def CJSON_NESTING_LIMIT : Nat := 1000

/-! ### Allocation state -/

/-- Allocation state: a counter supplying fresh allocation ids and the
multiset of ids currently allocated and not yet freed. -/
structure ASt where
  nextId : Nat
  live : Multiset Nat
deriving DecidableEq

/-- Models a successful `cJSON_malloc`: returns a fresh id and records it. -/
def ASt.alloc (st : ASt) : Nat × ASt :=
  (st.nextId, ⟨st.nextId + 1, st.live + {st.nextId}⟩)

/-- Models `cJSON_free` of the allocation with id `a`. -/
def ASt.free (st : ASt) (a : Nat) : ASt :=
  ⟨st.nextId, st.live.erase a⟩

/-- An owned string allocation: its allocation id and its byte contents. -/
structure StrA where
  id : Nat
  bytes : List Nat
deriving DecidableEq

/-! ### The node type, from `struct cJSON` in cJSON.h

A node as built by the parser, mirroring the C struct: `nil` stands for a
`NULL` pointer, `id` is the allocation id of the node itself, `typ` the
`type` bitmask, `valuestring`/`string` the owned string payload and key,
`valueint`/`valuedouble` the numeric fields, and `child`/`next` the child and
sibling pointers (the `prev` back-pointer is never read by the embedded
operations on this functional view and is omitted). -/

inductive PNode : Type where
  | nil : PNode
  | mk (id : Nat) (typ : Nat) (valuestring : Option StrA) (valueint : Option Int)
      (valuedouble : ℚ) (string : Option StrA) (child : PNode) (next : PNode) : PNode
deriving DecidableEq

def PNode.id : PNode → Nat
  | .nil => 0
  | .mk i _ _ _ _ _ _ _ => i

def PNode.typ : PNode → Nat
  | .nil => 0
  | .mk _ t _ _ _ _ _ _ => t

def PNode.valuestring : PNode → Option StrA
  | .nil => none
  | .mk _ _ vs _ _ _ _ _ => vs

def PNode.valueint : PNode → Option Int
  | .nil => none
  | .mk _ _ _ vi _ _ _ _ => vi

def PNode.valuedouble : PNode → ℚ
  | .nil => 0
  | .mk _ _ _ _ vd _ _ _ => vd

def PNode.key : PNode → Option StrA
  | .nil => none
  | .mk _ _ _ _ _ ks _ _ => ks

def PNode.child : PNode → PNode
  | .nil => .nil
  | .mk _ _ _ _ _ _ ch _ => ch

def PNode.next : PNode → PNode
  | .nil => .nil
  | .mk _ _ _ _ _ _ _ nx => nx

def PNode.setTyp : PNode → Nat → PNode
  | .nil, _ => .nil
  | .mk i _ vs vi vd ks ch nx, t => .mk i t vs vi vd ks ch nx

def PNode.setVS : PNode → Option StrA → PNode
  | .nil, _ => .nil
  | .mk i t _ vi vd ks ch nx, vs => .mk i t vs vi vd ks ch nx

def PNode.setVI : PNode → Option Int → PNode
  | .nil, _ => .nil
  | .mk i t vs _ vd ks ch nx, vi => .mk i t vs vi vd ks ch nx

def PNode.setNum : PNode → Option Int → ℚ → PNode
  | .nil, _, _ => .nil
  | .mk i t vs _ _ ks ch nx, vi, vd => .mk i t vs vi vd ks ch nx

def PNode.setKey : PNode → Option StrA → PNode
  | .nil, _ => .nil
  | .mk i t vs vi vd _ ch nx, ks => .mk i t vs vi vd ks ch nx

def PNode.setChild : PNode → PNode → PNode
  | .nil, _ => .nil
  | .mk i t vs vi vd ks _ nx, ch => .mk i t vs vi vd ks ch nx

def PNode.setNext : PNode → PNode → PNode
  | .nil, _ => .nil
  | .mk i t vs vi vd ks ch _, nx => .mk i t vs vi vd ks ch nx

/-- Assembles a sibling chain out of a list of nodes by writing their `next`
links, as the parser loops do incrementally in the source. -/
def chainOf : List PNode → PNode
  | [] => .nil
  | c :: rest => c.setNext (chainOf rest)

/-- Models `cJSON_New_Item`: allocate a node and zero all its fields. -/
def cJSON_New_Item (st : ASt) : PNode × ASt :=
  let p := st.alloc
  (.mk p.1 0 none (some 0) 0 none .nil .nil, p.2)

/-! ### skip -/

/-- Models `skip`: advance over bytes that are nonzero and `≤ 32`. -/
def skip : List Nat → List Nat
  | [] => []
  | c :: rest => if c ≠ 0 ∧ c ≤ 32 then skip rest else c :: rest

/-! ### Number codec, from `parse_number` -/

/-- The integer-digit accumulation loop of `parse_number`. -/
def digitsLoop : List Nat → ℚ → ℚ × List Nat
  | [], n => (n, [])
  | c :: rest, n =>
    if 48 ≤ c ∧ c ≤ 57 then digitsLoop rest (n * 10 + ((c - 48 : Nat) : ℚ))
    else (n, c :: rest)

/-- The fractional-digit loop of `parse_number`: accumulates into the mantissa
and decrements `scale`. -/
def fracLoop : List Nat → ℚ → Int → ℚ × Int × List Nat
  | [], n, sc => (n, sc, [])
  | c :: rest, n, sc =>
    if 48 ≤ c ∧ c ≤ 57 then fracLoop rest (n * 10 + ((c - 48 : Nat) : ℚ)) (sc - 1)
    else (n, sc, c :: rest)

/-- The exponent-digit loop of `parse_number` (`subscale` accumulation). -/
def expLoop : List Nat → Nat → Nat × List Nat
  | [], k => (k, [])
  | c :: rest, k =>
    if 48 ≤ c ∧ c ≤ 57 then expLoop rest (k * 10 + (c - 48))
    else (k, c :: rest)

/-- Exact model of `pow(10.0, e)` for integer `e`. -/
def qpow10 (e : Int) : ℚ :=
  if 0 ≤ e then (10 : ℚ) ^ e.toNat else 1 / (10 : ℚ) ^ (-e).toNat

/-- Truncation of a rational toward zero (the C float-to-int rounding). -/
def ratTrunc (q : ℚ) : Int := q.num.sign * ((q.num.natAbs / q.den : Nat) : Int)

/-- Models the C conversion `(int)n` from `double` to 32-bit `int`:
defined (truncation toward zero) exactly when the integral part is
representable in a signed 32-bit `int`; otherwise the resulting value is
unspecified (C11 6.3.1.4, Annex F), modelled as `none`. -/
def c_int_of_double (q : ℚ) : Option Int :=
  let t := ratTrunc q
  if -(2 ^ 31) ≤ t ∧ t < 2 ^ 31 then some t else none

/-- Models `parse_number`: optional sign, optional leading `0`, integer
digits, optional fraction, optional exponent; the final value is
`sign * n * 10 ^ (scale + subscale * signsubscale)`. The C source
accumulates `n` in a `double` (`n = n * 10.0 + digit`) and multiplies by
`pow(10.0, …)`; this model computes the same expressions in exact rational
arithmetic. The two coincide exactly when every intermediate value of the C
evaluation is exactly representable in IEEE binary64 — in particular for
plain integer literals whose prefixes all stay below `2^53`, where each
`n * 10 + d` step and the final `pow(10.0, 0) = 1` multiplication are exact
— but for longer digit strings the C `double` value is a rounded
approximation of the rational computed here, so theorems quantifying over
all inputs must restrict themselves to the exact regime. -/
def parse_number (item : PNode) (num : List Nat) : PNode × List Nat :=
  let p1 : Int × List Nat := if num.headD 0 = 45 then (-1, num.drop 1) else (1, num)
  let sign := p1.1
  let num1 := p1.2
  let num2 := if num1.headD 0 = 48 then num1.drop 1 else num1
  let p2 := if 49 ≤ num2.headD 0 ∧ num2.headD 0 ≤ 57 then digitsLoop num2 0 else ((0 : ℚ), num2)
  let p3 := if p2.2.headD 0 = 46 then fracLoop (p2.2.drop 1) p2.1 0 else (p2.1, (0 : Int), p2.2)
  let p4 : Nat × Int × List Nat :=
    if p3.2.2.headD 0 = 101 ∨ p3.2.2.headD 0 = 69 then
      let r1 := p3.2.2.drop 1
      let q : Int × List Nat :=
        if r1.headD 0 = 43 then (1, r1.drop 1)
        else if r1.headD 0 = 45 then (-1, r1.drop 1)
        else (1, r1)
      let e := expLoop q.2 0
      (e.1, q.1, e.2)
    else (0, 1, p3.2.2)
  let n : ℚ := sign * p3.1 * qpow10 (p3.2.1 + (p4.1 : Int) * p4.2.1)
  ((item.setNum (c_int_of_double n) n).setTyp cJSON_Number, p4.2.2)

/-- The numeric value of a run of decimal digit bytes, most significant
first — the mathematical value of an integer literal. -/
def decVal (ds : List Nat) : Nat := ds.foldl (fun n c => n * 10 + (c - 48)) 0

/-! ### String codec, from `parse_hex4` and `parse_string` -/

/-- One hexadecimal digit, as in the body of `parse_hex4`. -/
def hexDigitVal (c : Nat) : Option Nat :=
  if 48 ≤ c ∧ c ≤ 57 then some (c - 48)
  else if 65 ≤ c ∧ c ≤ 70 then some (c - 65 + 10)
  else if 97 ≤ c ∧ c ≤ 102 then some (c - 97 + 10)
  else none

/-- Models `parse_hex4`: reads four hex digits and accumulates them by
shift-or. The C function advances the pointer by four on success; callers of
this model advance by `List.drop 4` accordingly. -/
def parse_hex4v (s : List Nat) : Option Nat := do
  let a ← hexDigitVal (s.headD 0)
  let b ← hexDigitVal ((s.drop 1).headD 0)
  let c ← hexDigitVal ((s.drop 2).headD 0)
  let d ← hexDigitVal ((s.drop 3).headD 0)
  pure ((((((a <<< 4) ||| b) <<< 4) ||| c) <<< 4) ||| d)

/-- The first pass of `parse_string`: measures the escaped length and fails
(`none`) when the string is unterminated; a backslash consumes the following
byte unconditionally (a backslash that ends the buffer consumes the
terminator, after which the loop runs into the zero bytes past the buffer
and reports the string unterminated). -/
def slen : List Nat → Nat → Option Nat
  | [], _ => none
  | c :: rest, len =>
    if c = 34 then some len
    else if c = 0 then none
    else if c = 92 then
      match rest with
      | [] => none
      | _ :: rest2 => slen rest2 (len + 1)
    else slen rest (len + 1)

/-- Byte truncation of the C `(char)` cast. -/
def cByte (n : Nat) : Nat := n % 256

/-- A UTF-8 continuation byte, `(char)((uc | 0x80) & 0xBF)` in the source. -/
def utf8tail (uc : Nat) : Nat := cByte ((uc ||| 0x80) &&& 0xBF)

/-- Net effect of the reversed-write `switch` in `parse_string` that emits
the UTF-8 encoding of `uc` in 1 to 4 bytes. -/
def utf8enc (uc : Nat) : List Nat :=
  if uc < 0x80 then [cByte uc]
  else if uc < 0x800 then [cByte ((uc >>> 6) ||| 0xC0), utf8tail uc]
  else if uc < 0x10000 then
    [cByte ((uc >>> 12) ||| 0xE0), utf8tail (uc >>> 6), utf8tail uc]
  else
    [cByte ((uc >>> 18) ||| 0xF0), utf8tail (uc >>> 12), utf8tail (uc >>> 6), utf8tail uc]

mutual

/-- The second pass of `parse_string`, starting just after the opening quote:
builds the decoded bytes and returns them with the rest of the input
(positioned after the closing quote); `none` models the failure paths that
free the output buffer and return `NULL`. The pointer advances of the C code
are rendered as nested pattern matches; a byte missing past the end of the
list behaves as the NUL byte (it fails `parse_hex4`, fails the `\\u`
lookahead, or ends the loop), matching the C string convention. -/
def sbuild : List Nat → Option (List Nat × List Nat)
  | [] => some ([], [])
  | c :: rest =>
    if c = 34 then some ([], rest)
    else if c = 0 then some ([], c :: rest)
    else if c ≠ 92 then
      match sbuild rest with
      | none => none
      | some (bs, r) => some (c :: bs, r)
    else
      match rest with
      | [] => some ([0], [])
      | e :: rest2 =>
        if e = 117 then
          match rest2 with
          | a :: b :: c4 :: d :: after => sbuildU (parse_hex4v (a :: b :: c4 :: d :: after)) after
          | _ => none
        else
          match sbuild rest2 with
          | none => none
          | some (bs, r) =>
            some ((if e = 98 then 8
                   else if e = 102 then 12
                   else if e = 110 then 10
                   else if e = 114 then 13
                   else if e = 116 then 9
                   else e) :: bs, r)
termination_by structural s => s

/-- The `case 'u'` block of the decoding loop: first argument is the result
of `parse_hex4` on the four bytes after the `u` (`none` both for a short
buffer and for a non-hex digit, either way the block fails), second argument
is the input past those four bytes. Note the faithful modelling of the
`ptr++` that follows the whole `case 'u'` block in the source: it consumes
one extra byte, so the byte right after the escape is dropped. -/
def sbuildU : Option Nat → List Nat → Option (List Nat × List Nat)
  | none, _ => none
  | some uc, after =>
    if 0xDC00 ≤ uc ∧ uc ≤ 0xDFFF then none
    else if 0xD800 ≤ uc ∧ uc ≤ 0xDBFF then
      match after with
      | b1 :: u1 :: after2 =>
        if b1 ≠ 92 ∨ u1 ≠ 117 then none
        else sbuildS (parse_hex4v after2) uc after2
      | _ => none
    else
      match (match after with
             | [] => some (([] : List Nat), ([] : List Nat))
             | _ :: t5 => sbuild t5) with
      | none => none
      | some (bs, r) => some (utf8enc uc ++ bs, r)
termination_by structural _ s => s

/-- The low-surrogate half of the `case 'u'` block: the first argument is
the result of `parse_hex4` on the second escape's digits, `uc` the high
surrogate, and the list starts at those digits. -/
def sbuildS : Option Nat → Nat → List Nat → Option (List Nat × List Nat)
  | none, _, _ => none
  | some uc2, uc, after2 =>
    match after2 with
    | _ :: _ :: _ :: _ :: tail7 =>
      match (match tail7 with
             | [] => some (([] : List Nat), ([] : List Nat))
             | _ :: t8 => sbuild t8) with
      | none => none
      | some (bs, r) =>
        some (utf8enc (0x10000 + (((uc &&& 0x3FF) <<< 10) ||| (uc2 &&& 0x3FF))) ++ bs, r)
    | _ => none
termination_by structural _ _ s => s

end

/-- Result of a parsing function: `out` is fuel exhaustion (a model artifact
standing for the unbounded C recursion), `ok` is a successful parse with the
rest of the input, and `fail` models a `NULL` return; in both `ok` and `fail`
the (partially) filled node and the allocation state are carried along, since
the C code mutates the node in place. -/
inductive PRes : Type where
  | out : PRes
  | ok (rest : List Nat) (item : PNode) (st : ASt) : PRes
  | fail (item : PNode) (st : ASt) : PRes
deriving DecidableEq

/-- Models `parse_string`: quote check, measuring pass, allocation of the
output buffer, decoding pass (which frees the buffer on failure). -/
def parse_string (item : PNode) (s : List Nat) (st : ASt) : PRes :=
  if s.headD 0 ≠ 34 then .fail item st
  else
    match slen (s.drop 1) 0 with
    | none => .fail item st
    | some _ =>
      let p := st.alloc
      match sbuild (s.drop 1) with
      | none => .fail item (p.2.free p.1)
      | some (bs, rest) =>
        .ok rest ((item.setTyp cJSON_String).setVS (some ⟨p.1, bs⟩)) p.2

/-! ### Recursive descent, from `parse_value`, `parse_array`, `parse_object`.

The unbounded C recursion is embedded with explicit fuel; every recursive
call consumes one unit. The `while` loops over `,`-separated items are the
`arrLoop` and `objLoop` functions; the children accumulated so far are
carried as a list and their `next` links written by `chainOf`, mirroring the
links the C code writes before descending (so that a failing descent still
leaves all of them reachable from the item, as in the source). -/

mutual

def parse_value : Nat → PNode → List Nat → ASt → PRes
  | 0, _, _, _ => .out
  | f + 1, item, s, st =>
    if s.take 4 = [110, 117, 108, 108] then .ok (s.drop 4) (item.setTyp cJSON_NULL) st
    else if s.take 5 = [102, 97, 108, 115, 101] then .ok (s.drop 5) (item.setTyp cJSON_False) st
    else if s.take 4 = [116, 114, 117, 101] then
      .ok (s.drop 4) ((item.setTyp cJSON_True).setVI (some 1)) st
    else if s.headD 0 = 34 then parse_string item s st
    else if s.headD 0 = 45 ∨ (48 ≤ s.headD 0 ∧ s.headD 0 ≤ 57) then
      let p := parse_number item s
      .ok p.2 p.1 st
    else if s.headD 0 = 91 then parse_array f item s st
    else if s.headD 0 = 123 then parse_object f item s st
    else .fail item st
termination_by structural f => f

def parse_array : Nat → PNode → List Nat → ASt → PRes
  | 0, _, _, _ => .out
  | f + 1, item, s, st =>
    if s.headD 0 ≠ 91 then .fail item st
    else
      let item1 := item.setTyp cJSON_Array
      let s1 := skip (s.drop 1)
      if s1.headD 0 = 93 then .ok (s1.drop 1) item1 st
      else
        let p := cJSON_New_Item st
        match parse_value f p.1 (skip s1) p.2 with
        | .out => .out
        | .fail c0 st' => .fail (item1.setChild (chainOf [c0])) st'
        | .ok s2 c0 st' => arrLoop f item1 [c0] (skip s2) st'
termination_by structural f => f

def arrLoop : Nat → PNode → List PNode → List Nat → ASt → PRes
  | 0, _, _, _, _ => .out
  | f + 1, item, children, s, st =>
    if s.headD 0 ≠ 44 then
      if s.headD 0 = 93 then .ok (s.drop 1) (item.setChild (chainOf children)) st
      else .fail (item.setChild (chainOf children)) st
    else
      let p := cJSON_New_Item st
      match parse_value f p.1 (skip (s.drop 1)) p.2 with
      | .out => .out
      | .fail ni st' => .fail (item.setChild (chainOf (children ++ [ni]))) st'
      | .ok s2 ni st' => arrLoop f item (children ++ [ni]) (skip s2) st'
termination_by structural f => f

def parse_object : Nat → PNode → List Nat → ASt → PRes
  | 0, _, _, _ => .out
  | f + 1, item, s, st =>
    if s.headD 0 ≠ 123 then .fail item st
    else
      let item1 := item.setTyp cJSON_Object
      let s1 := skip (s.drop 1)
      if s1.headD 0 = 125 then .ok (s1.drop 1) item1 st
      else
        let p := cJSON_New_Item st
        match parse_string p.1 (skip s1) p.2 with
        | .out => .out
        | .fail c0 st' => .fail (item1.setChild (chainOf [c0])) st'
        | .ok s2 c0 st' =>
          let s2' := skip s2
          let c0' := (c0.setKey c0.valuestring).setVS none
          if s2'.headD 0 ≠ 58 then .fail (item1.setChild (chainOf [c0'])) st'
          else
            match parse_value f c0' (skip (s2'.drop 1)) st' with
            | .out => .out
            | .fail c1 st'' => .fail (item1.setChild (chainOf [c1])) st''
            | .ok s3 c1 st'' => objLoop f item1 [c1] (skip s3) st''
termination_by structural f => f

def objLoop : Nat → PNode → List PNode → List Nat → ASt → PRes
  | 0, _, _, _, _ => .out
  | f + 1, item, children, s, st =>
    if s.headD 0 ≠ 44 then
      if s.headD 0 = 125 then .ok (s.drop 1) (item.setChild (chainOf children)) st
      else .fail (item.setChild (chainOf children)) st
    else
      let p := cJSON_New_Item st
      match parse_string p.1 (skip (s.drop 1)) p.2 with
      | .out => .out
      | .fail ni st' => .fail (item.setChild (chainOf (children ++ [ni]))) st'
      | .ok s2 ni st' =>
        let s2' := skip s2
        let ni' := (ni.setKey ni.valuestring).setVS none
        if s2'.headD 0 ≠ 58 then .fail (item.setChild (chainOf (children ++ [ni']))) st'
        else
          match parse_value f ni' (skip (s2'.drop 1)) st' with
          | .out => .out
          | .fail c1 st'' => .fail (item.setChild (chainOf (children ++ [c1]))) st''
          | .ok s3 c1 st'' => objLoop f item (children ++ [c1]) (skip s3) st''
termination_by structural f => f

end

/-! ### Deletion as allocation accounting, from `cJSON_Delete`.

This view of `cJSON_Delete` records which allocation ids the function frees
(child subtrees unless `cJSON_IsReference`, the `valuestring` unless
`cJSON_IsReference`, the key `string` unconditionally, the node itself, and
then the whole `next` chain); it is used for the parse-failure cleanup
performed by `cJSON_ParseWithLength`. -/

def delP : PNode → ASt → ASt
  | .nil, st => st
  | .mk i typ vs _ _ ks child nx, st =>
    let st1 := if typ &&& cJSON_IsReference = 0 ∧ child ≠ .nil then delP child st else st
    let st2 :=
      match vs with
      | some a => if typ &&& cJSON_IsReference = 0 then st1.free a.id else st1
      | none => st1
    let st3 :=
      match ks with
      | some a => st2.free a.id
      | none => st2
    delP nx (st3.free i)

/-- Models `strlen` on a NUL-terminated byte buffer. -/
def strlenB (s : List Nat) : Nat := (s.takeWhile (· ≠ 0)).length

/-- Models `cJSON_ParseWithLength`: note that apart from the `buffer_length
== 0` rejection the declared length is never consulted; parsing reads the
buffer with C string semantics. On parse failure the partially built tree is
deleted and no tree is returned. The allocation state is returned alongside
the result; the outer `Option` is fuel exhaustion. -/
def cJSON_ParseWithLength (fuel : Nat) (value : List Nat) (buffer_length : Nat) :
    Option (Option PNode × ASt) :=
  if buffer_length = 0 then some (none, ⟨0, 0⟩)
  else
    let p := cJSON_New_Item ⟨0, 0⟩
    match parse_value fuel p.1 (skip value) p.2 with
    | .out => none
    | .fail c' st' => some (none, delP c' st')
    | .ok _ c' st' => some (some c', st')

/-- Models `cJSON_Parse`: measures the NUL-terminated length, then parses. -/
def cJSON_Parse (fuel : Nat) (value : List Nat) : Option (Option PNode × ASt) :=
  cJSON_ParseWithLength fuel value (strlenB value)

/-! ### Printer, from `print_string_ptr`, `print_value`, `print_array`,
`print_object`.

The printer is a pure function of the tree in the source (allocation-failure
paths aside, which are not modelled); the functions below return the byte
list of the produced text, `none` standing for the `NULL`-returning paths. -/

/-- Lower-case hexadecimal digit. -/
def hexLc (n : Nat) : Nat := if n < 10 then 48 + n else 97 + (n - 10)

/-- The `sprintf(ptr2, "u%04x", c)` fallback of `print_string_ptr`. -/
def hexEsc (b : Nat) : List Nat :=
  [117, hexLc (b / 4096 % 16), hexLc (b / 256 % 16), hexLc (b / 16 % 16), hexLc (b % 16)]

/-- Escaping of one byte in `print_string_ptr`. -/
def escByte (b : Nat) : List Nat :=
  if b < 32 ∨ b = 34 ∨ b = 92 then
    92 ::
      (if b = 92 then [92]
       else if b = 34 then [34]
       else if b = 8 then [98]
       else if b = 12 then [102]
       else if b = 10 then [110]
       else if b = 13 then [114]
       else if b = 9 then [116]
       else hexEsc b)
  else [b]

/-- The byte loop of `print_string_ptr`; C string reading stops at the first
NUL byte. -/
def escBytes : List Nat → List Nat
  | [] => []
  | b :: rest => if b = 0 then [] else escByte b ++ escBytes rest

/-- Models `print_string_ptr`: a quoted, escaped rendering of the string;
`NULL` in, `NULL` out. -/
def print_string_ptr : Option StrA → Option (List Nat)
  | none => none
  | some a => some (34 :: (escBytes a.bytes ++ [34]))

/-- Decimal digits of a natural number. -/
def natDigits (n : Nat) : List Nat :=
  if h : n < 10 then [48 + n] else natDigits (n / 10) ++ [48 + n % 10]
decreasing_by
  exact Nat.div_lt_self (by omega) (by omega)

/-- The `sprintf(out, "%d", valueint)` rendering. -/
def decRepr (i : Int) : List Nat :=
  if i < 0 then 45 :: natDigits i.natAbs else natDigits i.toNat

/-- DBL_EPSILON, exactly. -/
def DBL_EPSILON : ℚ := 1 / 2 ^ 52

/-- Floor of a nonnegative rational, as a natural number. -/
def qfloorN (q : ℚ) : Nat := q.num.toNat / q.den

/-- Six decimal digits with leading zeros. -/
def pad6 (n : Nat) : List Nat :=
  [48 + n / 100000 % 10, 48 + n / 10000 % 10, 48 + n / 1000 % 10,
   48 + n / 100 % 10, 48 + n / 10 % 10, 48 + n % 10]

/-- Models the `sprintf(out, "%f", valuedouble)` branch: fixed-point with six
fractional digits, rounding to nearest. No theorem below depends on this
branch; it is included for totality of the printer. -/
def printF (q : ℚ) : List Nat :=
  let m := qfloorN (|q| * 1000000 + 1 / 2)
  (if q < 0 then [45] else []) ++ natDigits (m / 1000000) ++ 46 :: pad6 (m % 1000000)

/-- The `cJSON_Number` branch of `print_value`: prints the integer field when
the float field is within `DBL_EPSILON` of it and below `1e60` in magnitude,
else fixed-point. When the integer field holds the unspecified result of an
out-of-range conversion (`none`), the comparison against the float is itself
unspecified; the model then takes the fixed-point branch. -/
def print_number (vi : Option Int) (vd : ℚ) : List Nat :=
  match vi with
  | some i => if |(i : ℚ) - vd| ≤ DBL_EPSILON ∧ |vd| < (10 : ℚ) ^ 60 then decRepr i else printF vd
  | none => printF vd

mutual

/-- Models `print_value`: dispatch on `type & 0xFF`. -/
def print_value : PNode → Bool → Nat → Option (List Nat)
  | .nil, _, _ => none
  | x@(.mk _ typ vs vi vd _ _ _), fmt, depth =>
    if typ &&& 255 = cJSON_NULL then some [110, 117, 108, 108]
    else if typ &&& 255 = cJSON_False then some [102, 97, 108, 115, 101]
    else if typ &&& 255 = cJSON_True then some [116, 114, 117, 101]
    else if typ &&& 255 = cJSON_Number then some (print_number vi vd)
    else if typ &&& 255 = cJSON_String then print_string_ptr vs
    else if typ &&& 255 = cJSON_Array then print_array x fmt depth
    else if typ &&& 255 = cJSON_Object then print_object x fmt depth
    else none
termination_by x _ _ => 4 * sizeOf x + 3
decreasing_by
  all_goals subst_vars
  all_goals simp_wf
  all_goals omega

/-- Models `print_array`: empty chain prints `[]`; otherwise the entries of
the child chain joined by `,` (plus a space when formatted), bracketed. -/
def print_array : PNode → Bool → Nat → Option (List Nat)
  | .nil, _, _ => none
  | .mk _ _ _ _ _ _ ch _, fmt, depth =>
    match ch with
    | .nil => some [91, 93]
    | c =>
      match chainA c fmt (depth + 1) with
      | none => none
      | some es =>
        some (91 :: (List.intercalate (44 :: (if fmt then [32] else [])) es ++ [93]))
termination_by x _ _ => 4 * sizeOf x + 2
decreasing_by
  all_goals subst_vars
  all_goals simp_wf
  all_goals omega

/-- The entries loop of `print_array`, along the sibling chain. -/
def chainA : PNode → Bool → Nat → Option (List (List Nat))
  | .nil, _, _ => some []
  | y@(.mk _ _ _ _ _ _ _ nx), fmt, depth =>
    match print_value y fmt depth with
    | none => none
    | some e =>
      match chainA nx fmt depth with
      | none => none
      | some rest => some (e :: rest)
termination_by x _ _ => 4 * sizeOf x + 4
decreasing_by
  all_goals subst_vars
  all_goals simp_wf
  all_goals omega

/-- Models `print_object`: empty chain prints `{}`; otherwise each member is
rendered as (tabs ++) key `:` (space ++) value, the members joined by `,`
(plus a newline when formatted), wrapped in braces with the formatted mode
adding a newline after `{` and a newline plus `depth` tabs before `}`. -/
def print_object : PNode → Bool → Nat → Option (List Nat)
  | .nil, _, _ => none
  | .mk _ _ _ _ _ _ ch _, fmt, depth =>
    match ch with
    | .nil => some [123, 125]
    | c =>
      match chainO c fmt depth with
      | none => none
      | some es =>
        some (123 :: ((if fmt then [10] else []) ++
          List.intercalate (44 :: (if fmt then [10] else [])) es ++
          (if fmt then 10 :: List.replicate depth 9 else []) ++ [125]))
termination_by x _ _ => 4 * sizeOf x + 2
decreasing_by
  all_goals subst_vars
  all_goals simp_wf
  all_goals omega

/-- The entries loop of `print_object`, along the sibling chain. -/
def chainO : PNode → Bool → Nat → Option (List (List Nat))
  | .nil, _, _ => some []
  | y@(.mk _ _ _ _ _ ks _ nx), fmt, depth =>
    match print_string_ptr ks with
    | none => none
    | some key =>
      match print_value y fmt (depth + 1) with
      | none => none
      | some val =>
        match chainO nx fmt depth with
        | none => none
        | some rest =>
          some (((if fmt then List.replicate (depth + 1) 9 else []) ++
            key ++ 58 :: ((if fmt then [32] else []) ++ val)) :: rest)
termination_by x _ _ => 4 * sizeOf x + 4
decreasing_by
  all_goals subst_vars
  all_goals simp_wf
  all_goals omega

end

/-- Models `cJSON_Print` (formatted). -/
def cJSON_Print (item : PNode) : Option (List Nat) := print_value item true 0

/-- Models `cJSON_PrintUnformatted`. -/
def cJSON_PrintUnformatted (item : PNode) : Option (List Nat) := print_value item false 0


/-! ### Heap model for the value-tree mutation operations.

`cJSON_Delete`, `cJSON_DetachItemFromArray` and `cJSON_DeleteItemFromArray`
perform pointer surgery on `prev`/`next` links, so they are embedded against
an explicit heap: a finite association list from node addresses to records
mirroring `struct cJSON` (string payloads appear as allocation ids; the
numeric fields play no role in these operations and are omitted). Freeing is
recorded as a list of events. A `none` result models either fuel exhaustion
or a dereference of a dangling pointer (undefined behavior in C). -/

structure CRec where
  next : Option Nat
  prev : Option Nat
  child : Option Nat
  typ : Nat
  valuestring : Option Nat
  string : Option Nat
deriving DecidableEq

abbrev Heap : Type := List (Nat × CRec)

def lookupH (h : Heap) (a : Nat) : Option CRec :=
  match h with
  | ([] : List (Nat × CRec)) => none
  | p :: rest => if p.1 = a then some p.2 else lookupH rest a

def removeH (h : Heap) (a : Nat) : Heap :=
  match h with
  | ([] : List (Nat × CRec)) => []
  | p :: rest => if p.1 = a then removeH rest a else p :: removeH rest a

def updateH (h : Heap) (a : Nat) (r : CRec) : Heap :=
  match h with
  | ([] : List (Nat × CRec)) => []
  | p :: rest => if p.1 = a then (a, r) :: updateH rest a r else p :: updateH rest a r

/-- A free event: release of a node shell or of a string allocation. -/
inductive FreeEvt where
  | node (a : Nat)
  | str (a : Nat)
deriving DecidableEq

/-- Models `cJSON_Delete` on the heap: the `while` loop walks the `next`
chain; for each node, the child subtree is deleted unless `cJSON_IsReference`
is set, `valuestring` is freed unless `cJSON_IsReference` is set, the key
`string` is freed whenever present (the `cJSON_StringIsConst` flag is never
consulted by the source), and the node itself is freed. -/
def cJSON_Delete_h (fuel : Nat) (h : Heap) (c : Option Nat) : Option (Heap × List FreeEvt) :=
  match fuel with
  | 0 => none
  | f + 1 =>
    match c with
    | none => some (h, [])
    | some a =>
      match lookupH h a with
      | none => none
      | some r =>
        match (if r.typ &&& cJSON_IsReference = 0 ∧ r.child ≠ none
               then cJSON_Delete_h f h r.child else some (h, [])) with
        | none => none
        | some (h1, ev1) =>
          let ev2 :=
            match r.valuestring with
            | some sid => if r.typ &&& cJSON_IsReference = 0 then [FreeEvt.str sid] else []
            | none => []
          let ev3 :=
            match r.string with
            | some sid => [FreeEvt.str sid]
            | none => []
          match cJSON_Delete_h f (removeH h1 a) r.next with
          | none => none
          | some (h3, ev4) =>
            some (h3, ev1 ++ ev2 ++ ev3 ++ FreeEvt.node a :: ev4)

/-- The walk `while (c && which > 0) c = c->next, which--` of
`cJSON_DetachItemFromArray`. -/
def walkNext (h : Heap) : Nat → Option Nat → Option Nat
  | 0, c => c
  | _ + 1, none => none
  | w + 1, some a => walkNext h w ((lookupH h a).bind (fun r => r.next))

/-- Models `cJSON_DetachItemFromArray`: walk to the `which`-th child; if none
is found return `NULL` and leave the heap unchanged; otherwise unlink it from
its neighbours (and from `array->child` if it is the head) and clear its own
`prev`/`next` links. Each C statement re-reads memory, hence the re-lookups
between updates. -/
def cJSON_DetachItemFromArray (h : Heap) (arr : Nat) (which : Nat) :
    Option (Heap × Option Nat) :=
  match lookupH h arr with
  | none => none
  | some ar =>
    match walkNext h which ar.child with
    | none => some (h, none)
    | some ca =>
      match lookupH h ca with
      | none => none
      | some cr =>
        match (match cr.prev with
               | some pa =>
                 match lookupH h pa with
                 | none => none
                 | some pr => some (updateH h pa { pr with next := cr.next })
               | none => some h) with
        | none => none
        | some h1 =>
          match lookupH h1 ca with
          | none => none
          | some cr1 =>
            match (match cr1.next with
                   | some na =>
                     match lookupH h1 na with
                     | none => none
                     | some nr => some (updateH h1 na { nr with prev := cr1.prev })
                   | none => some h1) with
            | none => none
            | some h2 =>
              match lookupH h2 arr, lookupH h2 ca with
              | some ar2, some cr2 =>
                match lookupH (if ar2.child = some ca
                               then updateH h2 arr { ar2 with child := cr2.next }
                               else h2) ca with
                | none => none
                | some cr3 =>
                  some (updateH (if ar2.child = some ca
                                 then updateH h2 arr { ar2 with child := cr2.next }
                                 else h2) ca { cr3 with prev := none, next := none },
                        some ca)
              | _, _ => none

/-- Models `cJSON_DeleteItemFromArray`: detach, then delete if found. -/
def cJSON_DeleteItemFromArray (fuel : Nat) (h : Heap) (arr which : Nat) :
    Option (Heap × List FreeEvt) :=
  match cJSON_DetachItemFromArray h arr which with
  | none => none
  | some (h1, none) => some (h1, [])
  | some (h1, some ca) => cJSON_Delete_h fuel h1 (some ca)

def blankRec : CRec := ⟨none, none, none, 0, none, none⟩

/-- Models `cJSON_CreateObject` placed at a caller-chosen fresh address. -/
def cJSON_CreateObject_h (h : Heap) (a : Nat) : Heap :=
  (a, { blankRec with typ := cJSON_Object }) :: h

/-- Models `cJSON_CreateString` at address `a` whose duplicated payload got
allocation id `sid`. -/
def cJSON_CreateString_h (h : Heap) (a : Nat) (sid : Nat) : Heap :=
  (a, { blankRec with typ := cJSON_String, valuestring := some sid }) :: h

/-- The walk `while (c && c->next) c = c->next` of `cJSON_AddItemToArray`. -/
def walkLast (h : Heap) : Nat → Nat → Option Nat
  | 0, _ => none
  | f + 1, c =>
    match lookupH h c with
    | none => none
    | some r =>
      match r.next with
      | none => some c
      | some n => walkLast h f n

/-- Models `cJSON_AddItemToArray`: append `it` at the end of the child
chain of `arr` (head position if the chain is empty). -/
def cJSON_AddItemToArray_h (fuel : Nat) (h : Heap) (arr it : Nat) : Option Heap :=
  match lookupH h arr with
  | none => none
  | some ar =>
    match ar.child with
    | none => some (updateH h arr { ar with child := some it })
    | some c0 =>
      match walkLast h fuel c0 with
      | none => none
      | some last =>
        match lookupH h last with
        | none => none
        | some lr =>
          match lookupH (updateH h last { lr with next := some it }) it with
          | none => none
          | some ir =>
            some (updateH (updateH h last { lr with next := some it }) it
                    { ir with prev := some last })

/-- Models `cJSON_AddItemToObjectCS`: store the caller-owned key id in the
`string` field, set `cJSON_StringIsConst`, then append to the child chain. -/
def cJSON_AddItemToObjectCS_h (fuel : Nat) (h : Heap) (obj : Nat) (keyId : Nat)
    (it : Nat) : Option Heap :=
  match lookupH h it with
  | none => none
  | some ir =>
    cJSON_AddItemToArray_h fuel
      (updateH h it { ir with string := some keyId, typ := ir.typ ||| cJSON_StringIsConst })
      obj it

/-! ### Shapes: finite tree-and-chain layouts used to specify the heap
operations. A shape records the addresses, type words and string ids of a
subheap laid out as a `child`/`next` tree. -/

inductive CShape where
  | nil : CShape
  | node (a : Nat) (typ : Nat) (vs ks : Option Nat) (child next : CShape) : CShape
deriving DecidableEq

/-- The pointer `c` spells the shape `s` in heap `h`: the addresses, type
words, string ids and the child/next structure all match. The `prev` field is
unconstrained (`cJSON_Delete` never reads it). -/
def spellsB (h : Heap) : Option Nat → CShape → Bool
  | none, .nil => true
  | some a, .node a' typ vs ks cs ns =>
    match lookupH h a with
    | none => false
    | some r =>
      a == a' && r.typ == typ && r.valuestring == vs && r.string == ks &&
        spellsB h r.child cs && spellsB h r.next ns
  | none, .node _ _ _ _ _ _ => false
  | some _, .nil => false

def CShape.addrs : CShape → List Nat
  | .nil => []
  | .node a _ _ _ cs ns => a :: (cs.addrs ++ ns.addrs)

def CShape.scount : CShape → Nat
  | .nil => 0
  | .node _ _ _ _ cs ns => 1 + cs.scount + ns.scount

/-- No node of the shape carries the `cJSON_IsReference` flag. -/
def CShape.noRef : CShape → Bool
  | .nil => true
  | .node _ typ _ _ cs ns => (typ &&& cJSON_IsReference == 0) && cs.noRef && ns.noRef

/-- The sequence of free events `cJSON_Delete` performs on a shape none of
whose nodes is a reference node. -/
def CShape.events : CShape → List FreeEvt
  | .nil => []
  | .node a _ vs ks cs ns =>
    cs.events ++
      (match vs with | some sid => [FreeEvt.str sid] | none => []) ++
      (match ks with | some sid => [FreeEvt.str sid] | none => []) ++
      FreeEvt.node a :: ns.events

/-- The node addresses freed according to an event list. -/
def nodeEvents : List FreeEvt → List Nat
  | [] => []
  | FreeEvt.node a :: rest => a :: nodeEvents rest
  | FreeEvt.str _ :: rest => nodeEvents rest

def removeList (h : Heap) (as : List Nat) : Heap := as.foldl removeH h


/-- The multiset of allocation ids that `cJSON_Delete` releases on a tree:
the child subtree's ids unless `cJSON_IsReference` (or no child), the
`valuestring` id unless `cJSON_IsReference`, the key id unconditionally, the
node's own id, and the ids of the whole `next` chain — the exact ids `delP`
frees, in the same grouping. -/
def ownedMS : PNode → Multiset Nat
  | .nil => 0
  | .mk i typ vs _ _ ks child nx =>
    (if typ &&& cJSON_IsReference = 0 ∧ child ≠ .nil then ownedMS child else 0) +
      (match vs with
        | some a => if typ &&& cJSON_IsReference = 0 then ({a.id} : Multiset Nat) else 0
        | none => 0) +
      (match ks with | some a => ({a.id} : Multiset Nat) | none => 0) +
      {i} + ownedMS nx

/-- Allocation/ownership bookkeeping for one parsing step: on a returned
node (success or failure alike) the newly live allocation ids are exactly
the ids newly owned by the returned node, and the node stays a non-null
node with its sibling link untouched. -/
def presOwned (item : PNode) (st : ASt) : PRes → Prop
  | .out => True
  | .ok _ item' st' =>
    (∃ d, st'.live = st.live + d ∧ ownedMS item' = ownedMS item + d) ∧
      item' ≠ .nil ∧ item'.next = item.next
  | .fail item' st' =>
    (∃ d, st'.live = st.live + d ∧ ownedMS item' = ownedMS item + d) ∧
      item' ≠ .nil ∧ item'.next = item.next

/-- As `presOwned`, for the `,`-loops: the ids owned by the children
accumulated so far are part of the balance. -/
def presOwnedC (item : PNode) (children : List PNode) (st : ASt) : PRes → Prop
  | .out => True
  | .ok _ item' st' =>
    (∃ d, st'.live = st.live + d ∧
      ownedMS item' = ownedMS item + (ownedMS (chainOf children) + d)) ∧
      item' ≠ .nil ∧ item'.next = item.next
  | .fail item' st' =>
    (∃ d, st'.live = st.live + d ∧
      ownedMS item' = ownedMS item + (ownedMS (chainOf children) + d)) ∧
      item' ≠ .nil ∧ item'.next = item.next

/-- The address of the top node of a shape (`0` for the null shape). -/
def elemAddr : CShape → Nat
  | .nil => 0
  | .node a _ _ _ _ _ => a

/-- The head address of a list of element shapes. -/
def headAddr : List CShape → Option Nat
  | [] => none
  | e :: _ => some (elemAddr e)

/-- All addresses of a list of element shapes (tops and subtrees). -/
def elemsAddrs : List CShape → List Nat
  | [] => []
  | e :: rest => e.addrs ++ elemsAddrs rest

/-- `c` points at a doubly linked sibling chain spelling the element shapes
`es`, with back pointer `p`: each element is a node whose `prev` field holds
the previous element's address, whose `child` spells that element's subtree,
and whose `next` leads on; the chain ends with a null `next`. This is the
layout `parse_array`/`parse_object` build and `cJSON_DetachItemFromArray`
walks (each element shape carries a nil `next` shape: the chain itself is the
list). -/
def chainB (h : Heap) : Option Nat → Option Nat → List CShape → Bool
  | _, c, [] => c == none
  | p, c, .node a t vs ks cs nsh :: rest =>
    nsh == .nil && c == some a &&
      (match lookupH h a with
       | none => false
       | some r =>
         r.prev == p && r.typ == t && r.valuestring == vs && r.string == ks &&
           spellsB h r.child cs && chainB h (some a) r.next rest)
  | _, _, .nil :: _ => false

/-- A chain segment: starting at back pointer `p` and cursor `c`, the shapes
`es` are spelled in sequence and the walk ends with back pointer `p2` and
cursor `c2`. -/
def chainSeg (h : Heap) : Option Nat → Option Nat → List CShape → Option Nat → Option Nat → Bool
  | p, c, [], p2, c2 => p == p2 && c == c2
  | p, c, .node a t vs ks cs nsh :: rest, p2, c2 =>
    nsh == .nil && c == some a &&
      (match lookupH h a with
       | none => false
       | some r =>
         r.prev == p && r.typ == t && r.valuestring == vs && r.string == ks &&
           spellsB h r.child cs && chainSeg h (some a) r.next rest p2 c2)
  | _, _, .nil :: _, _, _ => false

/-! ### Observation helpers shared by the theorems below -/

/-- The tree returned by a parse entry point, when one was returned. -/
def parsedRoot (r : Option (Option PNode × ASt)) : Option PNode :=
  match r with
  | some (some t, _) => some t
  | _ => none

/-- Whether a parse entry point returned a tree. -/
def parseSucceeds (r : Option (Option PNode × ASt)) : Bool :=
  match r with
  | some (some _, _) => true
  | _ => false

/-- The tree-or-`NULL` outcome of a parse entry point (`none` only on fuel
exhaustion of the model). -/
def treeOf (r : Option (Option PNode × ASt)) : Option (Option PNode) :=
  match r with
  | some (t, _) => some t
  | none => none

/-- The final allocation state of a parse entry point. -/
def stateOf (r : Option (Option PNode × ASt)) : Option ASt :=
  match r with
  | some (_, st) => some st
  | none => none

/-- Whether a parsing function returned `NULL`. -/
def PRes.isFail : PRes → Bool
  | .fail _ _ => true
  | _ => false

/-! ## C8 — surrogate-pair decoding -/

/-- C8: parsing the document `"\ud83d\ude00"` yields a single string node
whose payload is exactly `utf8enc 0x1F600`, the 4-byte UTF-8 encoding
`F0 9F 98 80` of U+1F600; and U+1F600 is what the standard UTF-16 formula
`0x10000 + ((hi & 0x3FF) << 10 | (lo & 0x3FF))` gives for the pair
`0xD83D`/`0xDE00`. -/
theorem C8_surrogate_pair_utf8 :
    parsedRoot (cJSON_ParseWithLength 4
        [34, 92, 117, 100, 56, 51, 100, 92, 117, 100, 101, 48, 48, 34] 14) =
      some (.mk 0 cJSON_String (some ⟨1, utf8enc 0x1F600⟩) (some 0) 0 none .nil .nil) ∧
    utf8enc 0x1F600 = [0xF0, 0x9F, 0x98, 0x80] ∧
    0x1F600 = 0x10000 + (((0xD83D &&& 0x3FF) <<< 10) ||| (0xDE00 &&& 0x3FF)) := by
  refine ⟨by decide, by decide, by decide⟩

/-! ## C2 — the explicit-length entry point ignores its length -/

/-- C2 (counterexample): the result of `cJSON_ParseWithLength` does not
depend only on the first `length` bytes of the buffer. With declared length
1, the buffer `true` parses successfully (the parser reads up to the NUL
terminator, ignoring the length), while the buffer consisting of its first
byte alone fails; in particular the two results differ. -/
theorem C2_counterexample :
    parseSucceeds (cJSON_ParseWithLength 4 [116, 114, 117, 101] 1) = true ∧
    parseSucceeds (cJSON_ParseWithLength 4 (List.take 1 [116, 114, 117, 101]) 1) = false ∧
    cJSON_ParseWithLength 4 [116, 114, 117, 101] 1 ≠
      cJSON_ParseWithLength 4 (List.take 1 [116, 114, 117, 101]) 1 := by
  refine ⟨by decide, by decide, by decide⟩

/-- C2 (amended): apart from rejecting a declared length of zero,
`cJSON_ParseWithLength` never consults `buffer_length`: the result is the
same for any two nonzero declared lengths, all reads being bounded by the
NUL terminator instead. -/
theorem C2_length_ignored (fuel : Nat) (buf : List Nat) (l1 l2 : Nat)
    (h1 : l1 ≠ 0) (h2 : l2 ≠ 0) :
    cJSON_ParseWithLength fuel buf l1 = cJSON_ParseWithLength fuel buf l2 := by
  unfold cJSON_ParseWithLength
  simp [h1, h2]

/-- Witness for `C2_length_ignored` at a concrete input. -/
theorem C2_length_ignored_witness :
    cJSON_ParseWithLength 4 [116, 114, 117, 101] 1 =
      cJSON_ParseWithLength 4 [116, 114, 117, 101] 7 :=
  C2_length_ignored 4 [116, 114, 117, 101] 1 7 (by decide) (by decide)

/-! ## C4 — deletion versus borrowed payloads -/

/-- The heap obtained by creating an object at address 0 and a string node at
address 1 (payload allocation id 100) and adding the node to the object with
`cJSON_AddItemToObjectCS` under the caller-owned constant key with
allocation id 200 (so the node carries `cJSON_StringIsConst`). -/
def C4heap : Option Heap :=
  cJSON_AddItemToObjectCS_h 8
    (cJSON_CreateString_h (cJSON_CreateObject_h ([] : Heap) 0) 1 100) 0 200 1

/-- A heap with a reference node: address 2 carries
`cJSON_Array ||| cJSON_IsReference`, a borrowed child at address 3 and a
borrowed string payload with allocation id 300. -/
def C4refHeap : Heap :=
  [(2, ⟨none, none, some 3, cJSON_Array ||| cJSON_IsReference, some 300, none⟩),
   (3, ⟨none, none, none, cJSON_Number, none, none⟩)]

/-- C4: evaluation of `cJSON_Delete` at the failing input. First conjunct
(the bug): deleting the object whose member was added with
`cJSON_AddItemToObjectCS` frees the caller-owned constant key (event
`.str 200`) even though the node carries `cJSON_StringIsConst` — the source
checks only `cJSON_IsReference` before freeing `valuestring` and never
consults `cJSON_StringIsConst` before freeing `string`. Second conjunct (the
part of the claim the code does honor): deleting a node marked
`cJSON_IsReference` releases only the node shell — the borrowed child at
address 3 stays in the heap and neither `.str 300` nor any other payload
event is emitted. -/
theorem C4_delete_ownership :
    C4heap.map (fun hh => cJSON_Delete_h 8 hh (some 0)) =
      some (some ([], [.str 100, .str 200, .node 1, .node 0])) ∧
    cJSON_Delete_h 8 C4refHeap (some 2) =
      some ([(3, ⟨none, none, none, cJSON_Number, none, none⟩)], [.node 2]) := by
  refine ⟨by decide, by decide⟩


/-! ## C5 — the integer field of numeric nodes -/

/-- Truncation toward zero of an integer-valued rational is that integer. -/
theorem ratTrunc_intCast (m : Int) : ratTrunc (m : ℚ) = m := by
  simp only [ratTrunc, Rat.num_intCast, Rat.den_intCast, Nat.div_one, Int.natCast_natAbs]
  exact Int.sign_mul_abs m

/-- The C `(int)` conversion of an integer-valued `double` inside the
32-bit range is exact. -/
theorem c_int_of_double_intCast (m : Int) (h1 : -(2 ^ 31) ≤ m) (h2 : m < 2 ^ 31) :
    c_int_of_double (m : ℚ) = some m := by
  unfold c_int_of_double
  rw [ratTrunc_intCast, if_pos ⟨h1, h2⟩]

/-- C5 (counterexample): the literal `2147483648` has an integral
mathematical value representable in a signed 64-bit integer, yet the parsed
node's integer field does not hold it: `valueint` is a C `int` (32 bits), the
conversion `(int)2147483648.0` is outside its range, and its result is
unspecified (`none` in the model) — in particular not `2147483648`. The
float field does hold the full value. -/
theorem C5_counterexample :
    parsedRoot (cJSON_ParseWithLength 4 [50, 49, 52, 55, 52, 56, 51, 54, 52, 56] 10) =
      some (.mk 0 cJSON_Number none none 2147483648 none .nil .nil) ∧
    (2147483648 : Int) < 2 ^ 63 := by
  constructor
  · simp [cJSON_ParseWithLength, cJSON_New_Item, ASt.alloc, parse_value, parse_number, digitsLoop,
      fracLoop, expLoop, qpow10, skip, parsedRoot, PNode.setNum, PNode.setTyp, cJSON_Number,
      c_int_of_double, ratTrunc]
    norm_num
    decide
  · decide

/-- The digit loop consumes a run of digit bytes entirely. -/
theorem digitsLoop_all (ds : List Nat) : ∀ (n : ℚ), (∀ c ∈ ds, 48 ≤ c ∧ c ≤ 57) →
    digitsLoop ds n = (ds.foldl (fun acc c => acc * 10 + ((c - 48 : Nat) : ℚ)) n, []) := by
  induction ds with
  | nil => intro n _; rfl
  | cons c rest ih =>
    intro n h
    have hc := h c (by simp)
    simp only [digitsLoop, List.foldl_cons]
    rw [if_pos hc]
    exact ih _ (fun x hx => h x (by simp [hx]))

/-- The rational digit accumulation of an integer literal is the cast of the
natural-number accumulation: every step is exact. -/
theorem foldl_digits_cast (ds : List Nat) : ∀ (n : Nat),
    ds.foldl (fun acc c => acc * 10 + ((c - 48 : Nat) : ℚ)) (n : ℚ) =
      ((ds.foldl (fun acc c => acc * 10 + (c - 48)) n : Nat) : ℚ) := by
  induction ds with
  | nil => intro n; rfl
  | cons c rest ih =>
    intro n
    simp only [List.foldl_cons]
    rw [show ((n : ℚ) * 10 + ((c - 48 : Nat) : ℚ)) = ((n * 10 + (c - 48) : Nat) : ℚ) by
      push_cast; ring]
    exact ih _

theorem digitsLoop_decVal (ds : List Nat) (h : ∀ c ∈ ds, 48 ≤ c ∧ c ≤ 57) :
    digitsLoop ds 0 = (((decVal ds : Nat) : ℚ), []) := by
  rw [digitsLoop_all ds 0 h, show (0 : ℚ) = ((0 : Nat) : ℚ) by norm_num, foldl_digits_cast]
  rfl

/-- `parse_number` on a plain integer literal (first digit 1–9, digits only,
end of buffer after them): no fraction, no exponent, value `decVal ds`. -/
theorem parse_number_digits (item : PNode) (ds : List Nat)
    (h49 : 49 ≤ ds.headD 0) (h57 : ds.headD 0 ≤ 57)
    (hdig : ∀ c ∈ ds, 48 ≤ c ∧ c ≤ 57) :
    parse_number item ds =
      ((item.setNum (c_int_of_double ((decVal ds : Nat) : ℚ)) ((decVal ds : Nat) : ℚ)).setTyp
        cJSON_Number, []) := by
  have h45 : ¬ds.headD 0 = 45 := by omega
  have h48 : ¬ds.headD 0 = 48 := by omega
  have hcond : 49 ≤ ds.headD 0 ∧ ds.headD 0 ≤ 57 := ⟨h49, h57⟩
  simp only [parse_number, h45, h48, hcond, if_false, if_true, ite_true, ite_false,
    digitsLoop_decVal ds hdig, List.headD_nil, List.drop_nil]
  norm_num [qpow10]

/-- As `parse_number_digits`, with a leading minus sign. -/
theorem parse_number_digits_neg (item : PNode) (ds : List Nat)
    (h49 : 49 ≤ ds.headD 0) (h57 : ds.headD 0 ≤ 57)
    (hdig : ∀ c ∈ ds, 48 ≤ c ∧ c ≤ 57) :
    parse_number item (45 :: ds) =
      ((item.setNum (c_int_of_double (-((decVal ds : Nat) : ℚ)))
        (-((decVal ds : Nat) : ℚ))).setTyp cJSON_Number, []) := by
  have h48 : ¬ds.headD 0 = 48 := by omega
  have hcond : 49 ≤ ds.headD 0 ∧ ds.headD 0 ≤ 57 := ⟨h49, h57⟩
  simp only [parse_number, List.headD_cons, List.drop_succ_cons, List.drop_zero, h48,
    hcond, if_false, if_true, ite_true, ite_false, digitsLoop_decVal ds hdig,
    List.headD_nil, List.drop_nil]
  norm_num [qpow10]

/-- C5 (amended): the redundant integer field is a 32-bit C `int`, not a
64-bit one: for every plain decimal integer literal — optional minus sign,
then digits with no leading zero (or the single digit `0`), as in the JSON
number grammar, ending the buffer — whose mathematical value is representable
in a signed 32-bit `int`, the parsed node's integer field holds exactly that
value, and the float field holds it exactly as well. On this class of inputs
every intermediate of the C `double` accumulation is an integer below
`2^31 < 2^53`, so the exact-rational model coincides with the IEEE `double`
evaluation of the source; no exactness is claimed for longer literals or for
fraction/exponent forms, where the C `double` rounds. -/
theorem C5_int32_exact (item : PNode) (ds : List Nat) (neg : Bool) (m : Int)
    (hn : item ≠ .nil)
    (hds : ds = [48] ∨ (49 ≤ ds.headD 0 ∧ ds.headD 0 ≤ 57))
    (hdig : ∀ c ∈ ds, 48 ≤ c ∧ c ≤ 57)
    (hm : m = (if neg then -1 else 1) * ((decVal ds : Nat) : Int))
    (hlo : -(2 ^ 31) ≤ m) (hhi : m < 2 ^ 31) :
    (parse_number item (if neg then 45 :: ds else ds)).1.valueint = some m ∧
    (parse_number item (if neg then 45 :: ds else ds)).1.valuedouble = (m : ℚ) := by
  cases item with
  | nil => exact absurd rfl hn
  | mk i t vs vi vd ks ch nx =>
  cases neg with
  | false =>
    have hmd : ((decVal ds : Nat) : ℚ) = (m : ℚ) := by
      rw [hm]
      simp
      try push_cast
      try ring
    rcases hds with rfl | ⟨h49, h57⟩
    · have hm0 : m = 0 := by simpa [decVal] using hm
      subst hm0
      refine ⟨?_, ?_⟩ <;>
        simp [parse_number, digitsLoop, qpow10, PNode.setNum, PNode.setTyp,
          PNode.valueint, PNode.valuedouble, c_int_of_double, ratTrunc] <;>
        norm_num
    · rw [if_neg (by simp), parse_number_digits _ ds h49 h57 hdig]
      simp only [PNode.setNum, PNode.setTyp, PNode.valueint, PNode.valuedouble]
      rw [hmd]
      exact ⟨c_int_of_double_intCast m hlo hhi, rfl⟩
  | true =>
    have hmd : -((decVal ds : Nat) : ℚ) = (m : ℚ) := by
      rw [hm]
      simp
      try push_cast
      try ring
    rcases hds with rfl | ⟨h49, h57⟩
    · have hm0 : m = 0 := by simpa [decVal] using hm
      subst hm0
      refine ⟨?_, ?_⟩ <;>
        simp [parse_number, digitsLoop, qpow10, PNode.setNum, PNode.setTyp,
          PNode.valueint, PNode.valuedouble, c_int_of_double, ratTrunc] <;>
        norm_num
    · rw [if_pos rfl, parse_number_digits_neg _ ds h49 h57 hdig]
      simp only [PNode.setNum, PNode.setTyp, PNode.valueint, PNode.valuedouble]
      rw [hmd]
      exact ⟨c_int_of_double_intCast m hlo hhi, rfl⟩

/-- Witness for `C5_int32_exact` at the literal `-21`. -/
theorem C5_int32_exact_witness :
    (parse_number (.mk 0 0 none (some 0) 0 none .nil .nil)
        (if true then 45 :: [50, 49] else [50, 49])).1.valueint = some (-21) ∧
    (parse_number (.mk 0 0 none (some 0) 0 none .nil .nil)
        (if true then 45 :: [50, 49] else [50, 49])).1.valuedouble = ((-21 : Int) : ℚ) :=
  C5_int32_exact (.mk 0 0 none (some 0) 0 none .nil .nil) [50, 49] true (-21) (by simp)
    (Or.inr (by decide)) (by decide) (by decide) (by decide) (by decide)

/-! ## C9 — parsing and printing of `3` and `3.0` -/

/-- C9: parsing `3` and parsing `3.0` both produce a numeric node whose
integer field holds `3` (and whose float field is exactly `3`), and printing
that node — in either mode — produces exactly the byte `3` with no
fractional digits, because `|double(3) - 3.0| ≤ DBL_EPSILON` and
`|3.0| < 1e60` select the integer branch of the number printer. -/
theorem C9_int_reconciliation :
    parsedRoot (cJSON_ParseWithLength 4 [51] 1) =
      some (.mk 0 cJSON_Number none (some 3) 3 none .nil .nil) ∧
    parsedRoot (cJSON_ParseWithLength 4 [51, 46, 48] 3) =
      some (.mk 0 cJSON_Number none (some 3) 3 none .nil .nil) ∧
    cJSON_Print (.mk 0 cJSON_Number none (some 3) 3 none .nil .nil) = some [51] ∧
    cJSON_PrintUnformatted (.mk 0 cJSON_Number none (some 3) 3 none .nil .nil) = some [51] := by
  refine ⟨?_, ?_, ?_, ?_⟩
  · simp [cJSON_ParseWithLength, cJSON_New_Item, ASt.alloc, parse_value, parse_number, digitsLoop,
      fracLoop, expLoop, qpow10, skip, parsedRoot, PNode.setNum, PNode.setTyp, cJSON_Number,
      c_int_of_double, ratTrunc]
    norm_num
    decide
  · simp [cJSON_ParseWithLength, cJSON_New_Item, ASt.alloc, parse_value, parse_number, digitsLoop,
      fracLoop, expLoop, qpow10, skip, parsedRoot, PNode.setNum, PNode.setTyp, cJSON_Number,
      c_int_of_double, ratTrunc]
    norm_num
    decide
  · simp [cJSON_Print, print_value, print_number, DBL_EPSILON, decRepr, natDigits, cJSON_Number,
      cJSON_NULL, cJSON_False, cJSON_True, cJSON_String, cJSON_Array, cJSON_Object,
      (by decide : (8 : Nat) &&& 255 = 8)]
    norm_num [abs_le]
  · simp [cJSON_PrintUnformatted, print_value, print_number, DBL_EPSILON, decRepr, natDigits,
      cJSON_Number, cJSON_NULL, cJSON_False, cJSON_True, cJSON_String, cJSON_Array, cJSON_Object,
      (by decide : (8 : Nat) &&& 255 = 8)]
    norm_num [abs_le]


/-! ## C1 — nesting depth -/

/-- Arrays nested `k + 1` levels deep: `[[...[]...]]`. -/
def nestedArr : Nat → List Nat
  | 0 => [91, 93]
  | k + 1 => 91 :: (nestedArr k ++ [93])

theorem nestedArr_head (k : Nat) (r : List Nat) : (nestedArr k ++ r).headD 0 = 91 := by
  cases k <;> simp [nestedArr]

theorem skip_nestedArr (k : Nat) (r : List Nat) : skip (nestedArr k ++ r) = nestedArr k ++ r := by
  cases k <;> simp [nestedArr, skip]

theorem skip_nestedArr0 (k : Nat) : skip (nestedArr k) = nestedArr k := by
  have h := skip_nestedArr k []
  simpa using h

/-- Parsing `nestedArr k` (followed by anything) succeeds and consumes it,
given fuel at least `2 * k + 2`: the descent recurses once per bracket pair
with no depth check anywhere. -/
theorem parse_value_nested (k : Nat) : ∀ (f : Nat) (post : List Nat) (item : PNode) (st : ASt),
    ∃ item' st', parse_value (f + 2 * k + 2) item (nestedArr k ++ post) st = .ok post item' st' := by
  induction k with
  | zero =>
    intro f post item st
    refine ⟨item.setTyp cJSON_Array, st, ?_⟩
    simp [nestedArr, parse_value, parse_array, skip]
  | succ k ih =>
    intro f post item st
    obtain ⟨item', st', hin⟩ :=
      ih f (93 :: post) (cJSON_New_Item st).1 (cJSON_New_Item st).2
    refine ⟨(item.setTyp cJSON_Array).setChild (chainOf [item']), st', ?_⟩
    have hrw : nestedArr (k + 1) ++ post = 91 :: (nestedArr k ++ (93 :: post)) := by
      simp [nestedArr]
    have hfuel : f + 2 * (k + 1) + 2 = f + 2 * k + 3 + 1 := by ring
    rw [hrw, hfuel]
    simp only [parse_value]
    rw [if_neg (by simp [List.take]), if_neg (by simp [List.take]), if_neg (by simp [List.take]),
      if_neg (by simp), if_neg (by simp), if_pos (by simp)]
    simp only [parse_array]
    rw [if_neg (by simp)]
    simp only [List.drop_one, List.tail_cons, skip_nestedArr, nestedArr_head]
    rw [if_neg (by simp)]
    simp only [skip_nestedArr, hin]
    have hskip : skip (93 :: post) = 93 :: post := by simp [skip]
    simp only [hskip]
    have hfuel2 : f + 2 * k + 2 = f + 2 * k + 1 + 1 := by ring
    rw [hfuel2]
    simp only [arrLoop]
    rw [if_pos (by simp), if_pos (by simp)]
    simp

/-- An array nested `k + 1` levels deep parses successfully through the
entry point, for every depth and every nonzero declared length. -/
theorem nestedParseOk (k f L : Nat) (hL : L ≠ 0) :
    parseSucceeds (cJSON_ParseWithLength (f + 2 * k + 2) (nestedArr k) L) = true := by
  obtain ⟨item', st', h⟩ :=
    parse_value_nested k f [] (cJSON_New_Item ⟨0, 0⟩).1 (cJSON_New_Item ⟨0, 0⟩).2
  rw [List.append_nil] at h
  unfold cJSON_ParseWithLength
  rw [if_neg hL]
  simp only [skip_nestedArr0, h, parseSucceeds]

/-- C1 (counterexample): an array nested 10,000 levels deep parses
successfully — there is no nesting-depth error of any kind, although the
source defines `CJSON_NESTING_LIMIT = 1000` (the constant is never used). -/
theorem C1_counterexample :
    parseSucceeds (cJSON_ParseWithLength (2 + 2 * 9999 + 2) (nestedArr 9999) 1) = true ∧
    CJSON_NESTING_LIMIT = 1000 :=
  ⟨nestedParseOk 9999 2 1 (by decide), by decide⟩

/-- C1 (amended): parsing enforces no nesting bound at all: the
depth-limit constant is defined but unused, and an array nested to any
depth — 10,000 included — parses successfully (the model makes the C
call-stack consumption explicit as fuel; the C code itself has no guard, so
on a real machine deep inputs consume one native stack frame per level). -/
theorem C1_no_nesting_limit (k f L : Nat) (hL : L ≠ 0) :
    parseSucceeds (cJSON_ParseWithLength (f + 2 * k + 2) (nestedArr k) L) = true :=
  nestedParseOk k f L hL

/-- Witness for `C1_no_nesting_limit` at depth 4. -/
theorem C1_no_nesting_limit_witness :
    parseSucceeds (cJSON_ParseWithLength (0 + 2 * 3 + 2) (nestedArr 3) 5) = true :=
  C1_no_nesting_limit 3 0 5 (by decide)


/-! ## C3 — surrogate validation in string escapes -/

theorem hexDigitVal_range (c v : Nat) (h : hexDigitVal c = some v) :
    (48 ≤ c ∧ c ≤ 57) ∨ (65 ≤ c ∧ c ≤ 70) ∨ (97 ≤ c ∧ c ≤ 102) := by
  unfold hexDigitVal at h
  split at h
  · left; assumption
  · split at h
    · right; left; assumption
    · split at h
      · right; right; assumption
      · exact absurd h (by simp)

theorem parse_hex4v_cons_elim (a b c d : Nat) (rest : List Nat) (uc : Nat)
    (h : parse_hex4v (a :: b :: c :: d :: rest) = some uc) :
    ∃ va vb vc vd2, hexDigitVal a = some va ∧ hexDigitVal b = some vb ∧
      hexDigitVal c = some vc ∧ hexDigitVal d = some vd2 := by
  simp only [parse_hex4v, List.headD_cons, List.drop_succ_cons, List.drop_zero] at h
  cases ha : hexDigitVal a with
  | none => rw [ha] at h; simp at h
  | some va =>
    rw [ha] at h
    cases hb : hexDigitVal b with
    | none => rw [hb] at h; simp at h
    | some vb =>
      rw [hb] at h
      cases hc : hexDigitVal c with
      | none => rw [hc] at h; simp at h
      | some vc =>
        rw [hc] at h
        cases hd : hexDigitVal d with
        | none => rw [hd] at h; simp at h
        | some vd2 => exact ⟨va, vb, vc, vd2, rfl, rfl, rfl, rfl⟩

/-- The measuring pass walks over a hex digit like over any ordinary byte. -/
theorem slen_hexstep (x : Nat) (r : List Nat) (len : Nat)
    (hx : (48 ≤ x ∧ x ≤ 57) ∨ (65 ≤ x ∧ x ≤ 70) ∨ (97 ≤ x ∧ x ≤ 102)) :
    slen (x :: r) len = slen r (len + 1) := by
  have h1 : x ≠ 34 := by omega
  have h2 : x ≠ 0 := by omega
  have h3 : x ≠ 92 := by omega
  conv_lhs => rw [slen.eq_def]
  simp only [h1, h2, h3, if_false, ite_false]

/-- The measuring pass on `\uXXXX` with hex digits `a b c d`. -/
theorem slen_chain (a b c d : Nat) (rest : List Nat)
    (hra : (48 ≤ a ∧ a ≤ 57) ∨ (65 ≤ a ∧ a ≤ 70) ∨ (97 ≤ a ∧ a ≤ 102))
    (hrb : (48 ≤ b ∧ b ≤ 57) ∨ (65 ≤ b ∧ b ≤ 70) ∨ (97 ≤ b ∧ b ≤ 102))
    (hrc : (48 ≤ c ∧ c ≤ 57) ∨ (65 ≤ c ∧ c ≤ 70) ∨ (97 ≤ c ∧ c ≤ 102))
    (hrd : (48 ≤ d ∧ d ≤ 57) ∨ (65 ≤ d ∧ d ≤ 70) ∨ (97 ≤ d ∧ d ≤ 102)) :
    slen (92 :: 117 :: a :: b :: c :: d :: rest) 0 = slen rest 5 := by
  have h92 : slen (92 :: 117 :: a :: b :: c :: d :: rest) 0 =
      slen (a :: b :: c :: d :: rest) 1 := by
    conv_lhs => rw [slen.eq_def]
    norm_num
  rw [h92, slen_hexstep a _ _ hra, slen_hexstep b _ _ hrb, slen_hexstep c _ _ hrc,
    slen_hexstep d _ _ hrd]

theorem sbuild_u_entry (a b c4 d : Nat) (rest : List Nat) :
    sbuild (92 :: 117 :: a :: b :: c4 :: d :: rest) =
      sbuildU (parse_hex4v (a :: b :: c4 :: d :: rest)) rest := rfl

theorem sbuildU_some_eq (uc : Nat) (after : List Nat) :
    sbuildU (some uc) after =
      if 0xDC00 ≤ uc ∧ uc ≤ 0xDFFF then none
      else if 0xD800 ≤ uc ∧ uc ≤ 0xDBFF then
        (match after with
         | b1 :: u1 :: after2 =>
           if b1 ≠ 92 ∨ u1 ≠ 117 then none
           else sbuildS (parse_hex4v after2) uc after2
         | _ => none)
      else
        (match (match after with
                | [] => some (([] : List Nat), ([] : List Nat))
                | _ :: t5 => sbuild t5) with
         | none => none
         | some (bs, r) => some (utf8enc uc ++ bs, r)) := by
  cases after with
  | nil => rfl
  | cons b1 t =>
    cases t with
    | nil => rfl
    | cons u1 after2 => rfl

/-- A `\uXXXX` escape whose value is a low surrogate fails the decode. -/
theorem sbuildU_low (uc : Nat) (after : List Nat) (h1 : 0xDC00 ≤ uc) (h2 : uc ≤ 0xDFFF) :
    sbuildU (some uc) after = none := by
  rw [sbuildU_some_eq, if_pos (And.intro h1 h2)]

/-- A high-surrogate `\uXXXX` escape not immediately followed by `\u`
fails the decode. -/
theorem sbuildU_high_nofollow (uc : Nat) (after : List Nat)
    (h1 : 0xD800 ≤ uc) (h2 : uc ≤ 0xDBFF)
    (h3 : after.headD 0 ≠ 92 ∨ (after.drop 1).headD 0 ≠ 117) :
    sbuildU (some uc) after = none := by
  rw [sbuildU_some_eq, if_neg (by omega), if_pos (And.intro h1 h2)]
  cases after with
  | nil => rfl
  | cons b1 t =>
    cases t with
    | nil => rfl
    | cons u1 after2 =>
      simp only [List.headD_cons, List.drop_succ_cons, List.drop_zero] at h3
      exact if_pos h3

/-- When the decode of a string whose body starts with `\uXXXX` (four hex
digits) fails, the whole of `parse_string` returns `NULL` — either the
measuring pass already fails on an unterminated string, or the decoding pass
runs into the failing escape. -/
theorem parse_string_usurr_fail (a b c d : Nat) (rest : List Nat) (item : PNode) (st : ASt)
    (hra : (48 ≤ a ∧ a ≤ 57) ∨ (65 ≤ a ∧ a ≤ 70) ∨ (97 ≤ a ∧ a ≤ 102))
    (hrb : (48 ≤ b ∧ b ≤ 57) ∨ (65 ≤ b ∧ b ≤ 70) ∨ (97 ≤ b ∧ b ≤ 102))
    (hrc : (48 ≤ c ∧ c ≤ 57) ∨ (65 ≤ c ∧ c ≤ 70) ∨ (97 ≤ c ∧ c ≤ 102))
    (hrd : (48 ≤ d ∧ d ≤ 57) ∨ (65 ≤ d ∧ d ≤ 70) ∨ (97 ≤ d ∧ d ≤ 102))
    (hsb : sbuild (92 :: 117 :: a :: b :: c :: d :: rest) = none) :
    (parse_string item (34 :: 92 :: 117 :: a :: b :: c :: d :: rest) st).isFail = true := by
  unfold parse_string
  rw [if_neg (by simp)]
  simp only [List.drop_succ_cons, List.drop_zero]
  rw [slen_chain a b c d rest hra hrb hrc hrd]
  cases hs : slen rest 5 with
  | none => rfl
  | some L =>
    rw [hsb]
    rfl

theorem parse_value_string_entry (f : Nat) (item : PNode) (tail : List Nat) (st : ASt) :
    parse_value (f + 1) item (34 :: tail) st = parse_string item (34 :: tail) st := by
  simp only [parse_value]
  rw [if_neg (by simp [List.take_succ_cons]), if_neg (by simp [List.take_succ_cons]),
    if_neg (by simp [List.take_succ_cons]), if_pos (by simp)]

/-- A failing `parse_string` at the root makes the entry point return no
tree. -/
theorem parseWithLength_fail_of_string_fail (f L : Nat) (tail : List Nat) (hL : L ≠ 0)
    (hfail : ∀ item st, (parse_string item (34 :: tail) st).isFail = true) :
    treeOf (cJSON_ParseWithLength (f + 1) (34 :: tail) L) = some none := by
  unfold cJSON_ParseWithLength
  rw [if_neg hL]
  have hskip : skip (34 :: tail) = 34 :: tail := by simp [skip]
  simp only [hskip, parse_value_string_entry]
  have hf := hfail (cJSON_New_Item ⟨0, 0⟩).1 (cJSON_New_Item ⟨0, 0⟩).2
  cases hps : parse_string (cJSON_New_Item ⟨0, 0⟩).1 (34 :: tail) (cJSON_New_Item ⟨0, 0⟩).2 with
  | out => rw [hps] at hf; simp [PRes.isFail] at hf
  | ok rest it stx => rw [hps] at hf; simp [PRes.isFail] at hf
  | fail it stx => rfl

theorem parse_string_lone_low_surrogate (a b c d uc : Nat) (rest : List Nat)
    (item : PNode) (st : ASt)
    (h4 : parse_hex4v (a :: b :: c :: d :: rest) = some uc)
    (hlo : 0xDC00 ≤ uc) (hhi : uc ≤ 0xDFFF) :
    (parse_string item (34 :: 92 :: 117 :: a :: b :: c :: d :: rest) st).isFail = true := by
  obtain ⟨va, vb, vc, vd, ha, hb, hc, hd⟩ := parse_hex4v_cons_elim a b c d rest uc h4
  exact parse_string_usurr_fail a b c d rest item st
    (hexDigitVal_range _ _ ha) (hexDigitVal_range _ _ hb)
    (hexDigitVal_range _ _ hc) (hexDigitVal_range _ _ hd)
    (by rw [sbuild_u_entry, h4]; exact sbuildU_low uc rest hlo hhi)

theorem parse_string_high_nofollow (a b c d uc : Nat) (rest : List Nat)
    (item : PNode) (st : ASt)
    (h4 : parse_hex4v (a :: b :: c :: d :: rest) = some uc)
    (hlo : 0xD800 ≤ uc) (hhi : uc ≤ 0xDBFF)
    (hnf : rest.headD 0 ≠ 92 ∨ (rest.drop 1).headD 0 ≠ 117) :
    (parse_string item (34 :: 92 :: 117 :: a :: b :: c :: d :: rest) st).isFail = true := by
  obtain ⟨va, vb, vc, vd, ha, hb, hc, hd⟩ := parse_hex4v_cons_elim a b c d rest uc h4
  exact parse_string_usurr_fail a b c d rest item st
    (hexDigitVal_range _ _ ha) (hexDigitVal_range _ _ hb)
    (hexDigitVal_range _ _ hc) (hexDigitVal_range _ _ hd)
    (by rw [sbuild_u_entry, h4]; exact sbuildU_high_nofollow uc rest hlo hhi hnf)

/-- A high-surrogate escape followed by the two bytes `\u` whose next four
bytes are not four hex digits fails the decode: the second `parse_hex4`
returns `NULL` and the whole string is rejected. -/
theorem sbuildU_high_badhex (uc : Nat) (after2 : List Nat)
    (h1 : 0xD800 ≤ uc) (h2 : uc ≤ 0xDBFF) (hbad : parse_hex4v after2 = none) :
    sbuildU (some uc) (92 :: 117 :: after2) = none := by
  rw [sbuildU_some_eq, if_neg (by omega), if_pos (And.intro h1 h2)]
  show (if (92 ≠ 92 ∨ 117 ≠ 117) then none
    else sbuildS (parse_hex4v after2) uc after2) = none
  rw [if_neg (by simp), hbad]
  simp only [sbuildS]

theorem parse_string_high_badhex (a b c d uc : Nat) (after2 : List Nat)
    (item : PNode) (st : ASt)
    (h4 : parse_hex4v (a :: b :: c :: d :: (92 :: 117 :: after2)) = some uc)
    (hlo : 0xD800 ≤ uc) (hhi : uc ≤ 0xDBFF)
    (hbad : parse_hex4v after2 = none) :
    (parse_string item (34 :: 92 :: 117 :: a :: b :: c :: d :: 92 :: 117 :: after2) st).isFail
      = true := by
  obtain ⟨va, vb, vc, vd, ha, hb, hc, hd⟩ := parse_hex4v_cons_elim a b c d _ uc h4
  exact parse_string_usurr_fail a b c d (92 :: 117 :: after2) item st
    (hexDigitVal_range _ _ ha) (hexDigitVal_range _ _ hb)
    (hexDigitVal_range _ _ hc) (hexDigitVal_range _ _ hd)
    (by rw [sbuild_u_entry, h4]; exact sbuildU_high_badhex uc after2 hlo hhi hbad)

/-- The measuring pass on a second `\uXXXX` escape, from count 5. -/
theorem slen_chain5 (a b c d : Nat) (rest : List Nat)
    (hra : (48 ≤ a ∧ a ≤ 57) ∨ (65 ≤ a ∧ a ≤ 70) ∨ (97 ≤ a ∧ a ≤ 102))
    (hrb : (48 ≤ b ∧ b ≤ 57) ∨ (65 ≤ b ∧ b ≤ 70) ∨ (97 ≤ b ∧ b ≤ 102))
    (hrc : (48 ≤ c ∧ c ≤ 57) ∨ (65 ≤ c ∧ c ≤ 70) ∨ (97 ≤ c ∧ c ≤ 102))
    (hrd : (48 ≤ d ∧ d ≤ 57) ∨ (65 ≤ d ∧ d ≤ 70) ∨ (97 ≤ d ∧ d ≤ 102)) :
    slen (92 :: 117 :: a :: b :: c :: d :: rest) 5 = slen rest 10 := by
  have h92 : slen (92 :: 117 :: a :: b :: c :: d :: rest) 5 =
      slen (a :: b :: c :: d :: rest) 6 := by
    conv_lhs => rw [slen.eq_def]
    norm_num
  rw [h92, slen_hexstep a _ _ hra, slen_hexstep b _ _ hrb, slen_hexstep c _ _ hrc,
    slen_hexstep d _ _ hrd]

/-- The decode of a high surrogate followed by `\u` and ANY four hex digits
succeeds: the value of the second escape is never range-checked, and the two
values are combined by the UTF-16 pairing formula. (The byte after the second
escape — here the closing quote — is consumed by the stray `ptr++`.) -/
theorem sbuild_pair (x1 x2 x3 x4 y1 y2 y3 y4 uc1 uc2 : Nat)
    (hh : parse_hex4v (x1 :: x2 :: x3 :: x4 :: (92 :: 117 :: y1 :: y2 :: y3 :: y4 :: [34])) =
      some uc1)
    (hg : parse_hex4v (y1 :: y2 :: y3 :: y4 :: [34]) = some uc2)
    (hlo : 0xD800 ≤ uc1) (hhi : uc1 ≤ 0xDBFF) :
    sbuild (92 :: 117 :: x1 :: x2 :: x3 :: x4 :: 92 :: 117 :: y1 :: y2 :: y3 :: y4 :: [34]) =
      some (utf8enc (0x10000 + (((uc1 &&& 0x3FF) <<< 10) ||| (uc2 &&& 0x3FF))), []) := by
  rw [sbuild_u_entry, hh, sbuildU_some_eq, if_neg (by omega), if_pos (And.intro hlo hhi)]
  show (if (92 ≠ 92 ∨ 117 ≠ 117) then none
    else sbuildS (parse_hex4v (y1 :: y2 :: y3 :: y4 :: [34])) uc1
      (y1 :: y2 :: y3 :: y4 :: [34])) = _
  rw [if_neg (by simp), hg]
  show some (utf8enc (0x10000 + (((uc1 &&& 0x3FF) <<< 10) ||| (uc2 &&& 0x3FF))) ++
    ([] : List Nat), ([] : List Nat)) = _
  simp

theorem parse_string_pair_ok (x1 x2 x3 x4 y1 y2 y3 y4 uc1 uc2 : Nat)
    (item : PNode) (st : ASt)
    (hh : parse_hex4v (x1 :: x2 :: x3 :: x4 :: (92 :: 117 :: y1 :: y2 :: y3 :: y4 :: [34])) =
      some uc1)
    (hg : parse_hex4v (y1 :: y2 :: y3 :: y4 :: [34]) = some uc2)
    (hlo : 0xD800 ≤ uc1) (hhi : uc1 ≤ 0xDBFF) :
    parse_string item
        (34 :: 92 :: 117 :: x1 :: x2 :: x3 :: x4 :: 92 :: 117 :: y1 :: y2 :: y3 :: y4 :: [34])
        st =
      .ok [] ((item.setTyp cJSON_String).setVS
          (some ⟨st.nextId, utf8enc (0x10000 + (((uc1 &&& 0x3FF) <<< 10) ||| (uc2 &&& 0x3FF)))⟩))
        ⟨st.nextId + 1, st.live + {st.nextId}⟩ := by
  obtain ⟨va, vb, vc, vd, ha, hb, hc, hd⟩ := parse_hex4v_cons_elim x1 x2 x3 x4 _ uc1 hh
  obtain ⟨wa, wb, wc, wd, hga, hgb, hgc, hgd⟩ := parse_hex4v_cons_elim y1 y2 y3 y4 _ uc2 hg
  have hslen : slen
      (92 :: 117 :: x1 :: x2 :: x3 :: x4 :: 92 :: 117 :: y1 :: y2 :: y3 :: y4 :: [34]) 0 =
      some 10 := by
    rw [slen_chain x1 x2 x3 x4 _ (hexDigitVal_range _ _ ha) (hexDigitVal_range _ _ hb)
      (hexDigitVal_range _ _ hc) (hexDigitVal_range _ _ hd),
      slen_chain5 y1 y2 y3 y4 _ (hexDigitVal_range _ _ hga) (hexDigitVal_range _ _ hgb)
      (hexDigitVal_range _ _ hgc) (hexDigitVal_range _ _ hgd)]
    rfl
  unfold parse_string
  rw [if_neg (by simp)]
  simp only [List.drop_succ_cons, List.drop_zero]
  rw [hslen, sbuild_pair x1 x2 x3 x4 y1 y2 y3 y4 uc1 uc2 hh hg hlo hhi]
  rfl

theorem parseWithLength_pair_ok (f L : Nat) (x1 x2 x3 x4 y1 y2 y3 y4 uc1 uc2 : Nat)
    (hh : parse_hex4v (x1 :: x2 :: x3 :: x4 :: (92 :: 117 :: y1 :: y2 :: y3 :: y4 :: [34])) =
      some uc1)
    (hg : parse_hex4v (y1 :: y2 :: y3 :: y4 :: [34]) = some uc2)
    (hlo : 0xD800 ≤ uc1) (hhi : uc1 ≤ 0xDBFF) (hL : L ≠ 0) :
    parsedRoot (cJSON_ParseWithLength (f + 1)
        (34 :: 92 :: 117 :: x1 :: x2 :: x3 :: x4 :: 92 :: 117 :: y1 :: y2 :: y3 :: y4 :: [34])
        L) =
      some (.mk 0 cJSON_String
        (some ⟨1, utf8enc (0x10000 + (((uc1 &&& 0x3FF) <<< 10) ||| (uc2 &&& 0x3FF)))⟩)
        (some 0) 0 none .nil .nil) := by
  unfold cJSON_ParseWithLength
  rw [if_neg hL]
  have hskip : skip
      (34 :: 92 :: 117 :: x1 :: x2 :: x3 :: x4 :: 92 :: 117 :: y1 :: y2 :: y3 :: y4 :: [34]) =
      34 :: 92 :: 117 :: x1 :: x2 :: x3 :: x4 :: 92 :: 117 :: y1 :: y2 :: y3 :: y4 :: [34] := by
    simp [skip]
  simp only [hskip, parse_value_string_entry]
  rw [parse_string_pair_ok x1 x2 x3 x4 y1 y2 y3 y4 uc1 uc2 _ _ hh hg hlo hhi]
  rfl

/-- C3 (amended): inside a string literal, a `\uXXXX` escape encoding a
lone low surrogate (0xDC00–0xDFFF) makes the whole parse fail; a high
surrogate (0xD800–0xDBFF) that is not immediately followed by the two bytes
`\u` plus four hex digits makes the whole parse fail (whether the `\u`
lookahead itself fails or the four bytes after it are not hex digits); but
the VALUE of the escape that follows a high surrogate is never checked to
lie in 0xDC00–0xDFFF: any four hex digits are accepted and combined with the
high surrogate by the UTF-16 pairing formula. First conjunct: lone low
surrogate fails; second: high surrogate with no `\u` lookahead fails;
third: high surrogate with `\u` but a failing second `parse_hex4` fails;
fourth: a high surrogate followed by `\u` and ANY four hex digits — of any
value `uc2` whatsoever — parses successfully to the string node for code
point `0x10000 + ((uc1 & 0x3FF) << 10 | (uc2 & 0x3FF))`. In the failing
cases `parse_string` returns `NULL` and the entry point returns no tree. -/
theorem C3_surrogate_validation :
    (∀ (a b c d uc f L : Nat) (rest : List Nat) (item : PNode) (st : ASt),
      parse_hex4v (a :: b :: c :: d :: rest) = some uc →
      0xDC00 ≤ uc → uc ≤ 0xDFFF → L ≠ 0 →
      (parse_string item (34 :: 92 :: 117 :: a :: b :: c :: d :: rest) st).isFail = true ∧
      treeOf (cJSON_ParseWithLength (f + 1) (34 :: 92 :: 117 :: a :: b :: c :: d :: rest) L) =
        some none) ∧
    (∀ (a b c d uc f L : Nat) (rest : List Nat) (item : PNode) (st : ASt),
      parse_hex4v (a :: b :: c :: d :: rest) = some uc →
      0xD800 ≤ uc → uc ≤ 0xDBFF →
      (rest.headD 0 ≠ 92 ∨ (rest.drop 1).headD 0 ≠ 117) → L ≠ 0 →
      (parse_string item (34 :: 92 :: 117 :: a :: b :: c :: d :: rest) st).isFail = true ∧
      treeOf (cJSON_ParseWithLength (f + 1) (34 :: 92 :: 117 :: a :: b :: c :: d :: rest) L) =
        some none) ∧
    (∀ (a b c d uc f L : Nat) (after2 : List Nat) (item : PNode) (st : ASt),
      parse_hex4v (a :: b :: c :: d :: (92 :: 117 :: after2)) = some uc →
      0xD800 ≤ uc → uc ≤ 0xDBFF → parse_hex4v after2 = none → L ≠ 0 →
      (parse_string item (34 :: 92 :: 117 :: a :: b :: c :: d :: 92 :: 117 :: after2)
        st).isFail = true ∧
      treeOf (cJSON_ParseWithLength (f + 1)
        (34 :: 92 :: 117 :: a :: b :: c :: d :: 92 :: 117 :: after2) L) = some none) ∧
    (∀ (x1 x2 x3 x4 y1 y2 y3 y4 uc1 uc2 f L : Nat),
      parse_hex4v (x1 :: x2 :: x3 :: x4 :: (92 :: 117 :: y1 :: y2 :: y3 :: y4 :: [34])) =
        some uc1 →
      parse_hex4v (y1 :: y2 :: y3 :: y4 :: [34]) = some uc2 →
      0xD800 ≤ uc1 → uc1 ≤ 0xDBFF → L ≠ 0 →
      parsedRoot (cJSON_ParseWithLength (f + 1)
          (34 :: 92 :: 117 :: x1 :: x2 :: x3 :: x4 :: 92 :: 117 :: y1 :: y2 :: y3 :: y4 ::
            [34]) L) =
        some (.mk 0 cJSON_String
          (some ⟨1, utf8enc (0x10000 + (((uc1 &&& 0x3FF) <<< 10) ||| (uc2 &&& 0x3FF)))⟩)
          (some 0) 0 none .nil .nil)) := by
  refine ⟨?_, ?_, ?_, ?_⟩
  · intro a b c d uc f L rest item st h4 hlo hhi hL
    refine ⟨parse_string_lone_low_surrogate a b c d uc rest item st h4 hlo hhi, ?_⟩
    exact parseWithLength_fail_of_string_fail f L _ hL
      (fun it s => parse_string_lone_low_surrogate a b c d uc rest it s h4 hlo hhi)
  · intro a b c d uc f L rest item st h4 hlo hhi hnf hL
    refine ⟨parse_string_high_nofollow a b c d uc rest item st h4 hlo hhi hnf, ?_⟩
    exact parseWithLength_fail_of_string_fail f L _ hL
      (fun it s => parse_string_high_nofollow a b c d uc rest it s h4 hlo hhi hnf)
  · intro a b c d uc f L after2 item st h4 hlo hhi hbad hL
    refine ⟨parse_string_high_badhex a b c d uc after2 item st h4 hlo hhi hbad, ?_⟩
    exact parseWithLength_fail_of_string_fail f L _ hL
      (fun it s => parse_string_high_badhex a b c d uc after2 it s h4 hlo hhi hbad)
  · intro x1 x2 x3 x4 y1 y2 y3 y4 uc1 uc2 f L hh hg hlo hhi hL
    exact parseWithLength_pair_ok f L x1 x2 x3 x4 y1 y2 y3 y4 uc1 uc2 hh hg hlo hhi hL

/-- Witness for `C3_surrogate_validation`: the lone low surrogate
`"\udc00"`; the unfollowed high surrogate `"\ud800x"`; the high surrogate
followed by `\u` and non-hex bytes `"\ud800\uzzzz"`; and the high
surrogate followed by the non-low-surrogate escape `"\ud800\u0041"`,
accepted as code point 0x10041. -/
theorem C3_surrogate_validation_witness :
    ((parse_string .nil (34 :: 92 :: 117 :: 100 :: 99 :: 48 :: 48 :: [34]) ⟨0, 0⟩).isFail = true ∧
      treeOf (cJSON_ParseWithLength (3 + 1) (34 :: 92 :: 117 :: 100 :: 99 :: 48 :: 48 :: [34]) 8) =
        some none) ∧
    ((parse_string .nil (34 :: 92 :: 117 :: 100 :: 56 :: 48 :: 48 :: [120, 34]) ⟨0, 0⟩).isFail = true ∧
      treeOf (cJSON_ParseWithLength (3 + 1) (34 :: 92 :: 117 :: 100 :: 56 :: 48 :: 48 :: [120, 34]) 9) =
        some none) ∧
    ((parse_string .nil
        (34 :: 92 :: 117 :: 100 :: 56 :: 48 :: 48 :: 92 :: 117 :: [122, 122, 122, 122, 34])
        ⟨0, 0⟩).isFail = true ∧
      treeOf (cJSON_ParseWithLength (3 + 1)
        (34 :: 92 :: 117 :: 100 :: 56 :: 48 :: 48 :: 92 :: 117 :: [122, 122, 122, 122, 34]) 14) =
        some none) ∧
    parsedRoot (cJSON_ParseWithLength (3 + 1)
        (34 :: 92 :: 117 :: 100 :: 56 :: 48 :: 48 :: 92 :: 117 :: 48 :: 48 :: 52 :: 49 :: [34])
        14) =
      some (.mk 0 cJSON_String (some ⟨1, utf8enc (0x10000 + (((0xD800 &&& 0x3FF) <<< 10) |||
        (0x41 &&& 0x3FF)))⟩) (some 0) 0 none .nil .nil) :=
  ⟨C3_surrogate_validation.1 100 99 48 48 0xDC00 3 8 [34] .nil ⟨0, 0⟩ (by decide) (by decide)
      (by decide) (by decide),
   C3_surrogate_validation.2.1 100 56 48 48 0xD800 3 9 [120, 34] .nil ⟨0, 0⟩ (by decide)
      (by decide) (by decide) (by decide) (by decide),
   C3_surrogate_validation.2.2.1 100 56 48 48 0xD800 3 14 [122, 122, 122, 122, 34] .nil ⟨0, 0⟩
      (by decide) (by decide) (by decide) (by decide) (by decide),
   C3_surrogate_validation.2.2.2 100 56 48 48 48 48 52 49 0xD800 0x41 3 14 (by decide)
      (by decide) (by decide) (by decide) (by decide)⟩

/-- C3 (counterexample): the document `"\ud800\u0041"` — a high surrogate
followed by a `\uXXXX` escape whose value 0x0041 is NOT a low surrogate —
parses successfully (the source checks only that the two bytes `\u` and
four hex digits follow, never that the second value lies in 0xDC00–0xDFFF),
yielding the string node for code point 0x10041; the claim says this input
must make the whole parse fail. -/
theorem C3_counterexample :
    parsedRoot (cJSON_ParseWithLength 4
        [34, 92, 117, 100, 56, 48, 48, 92, 117, 48, 48, 52, 49, 34] 14) =
      some (.mk 0 cJSON_String (some ⟨1, utf8enc 0x10041⟩) (some 0) 0 none .nil .nil) ∧
    ¬ (0xDC00 ≤ 0x41 ∧ 0x41 ≤ 0xDFFF) := by
  refine ⟨by decide, by decide⟩

/-! ### C6: the sibling-cascade of `cJSON_Delete` -/

theorem lookupH_removeH (h : Heap) (a x : Nat) :
    lookupH (removeH h a) x = if x = a then none else lookupH h x := by
  induction h with
  | nil => simp [removeH, lookupH]
  | cons p rest ih =>
    by_cases hpa : p.1 = a
    · have h1 : removeH (p :: rest) a = removeH rest a := by simp [removeH, hpa]
      by_cases hxa : x = a
      · rw [h1, ih, if_pos hxa, if_pos hxa]
      · have hpx : p.1 ≠ x := by omega
        rw [h1, ih, if_neg hxa, if_neg hxa]
        try simp [lookupH, hpx]
    · have h1 : removeH (p :: rest) a = p :: removeH rest a := by simp [removeH, hpa]
      by_cases hpx : p.1 = x
      · have hxa : x ≠ a := by omega
        rw [h1, if_neg hxa]
        simp [lookupH, hpx]
      · rw [h1]
        simp [lookupH, hpx, ih]

theorem lookupH_updateH_ne (h : Heap) (a x : Nat) (r : CRec) (hne : x ≠ a) :
    lookupH (updateH h a r) x = lookupH h x := by
  induction h with
  | nil => simp [updateH, lookupH]
  | cons p rest ih =>
    by_cases hpa : p.1 = a
    · have hax : a ≠ x := by omega
      have hpx : p.1 ≠ x := by omega
      have h1 : updateH (p :: rest) a r = (a, r) :: updateH rest a r := by
        simp [updateH, hpa]
      rw [h1]
      simp [lookupH, hax, hpx, ih]
    · have h1 : updateH (p :: rest) a r = p :: updateH rest a r := by simp [updateH, hpa]
      rw [h1]
      simp only [lookupH]
      by_cases hpx : p.1 = x
      · simp [hpx]
      · simp [hpx, ih]

theorem lookupH_updateH_isSome (h : Heap) (a : Nat) (r : CRec)
    (hs : (lookupH h a).isSome) : lookupH (updateH h a r) a = some r := by
  induction h with
  | nil => simp [lookupH] at hs
  | cons p rest ih =>
    by_cases hpa : p.1 = a
    · have h1 : updateH (p :: rest) a r = (a, r) :: updateH rest a r := by
        simp [updateH, hpa]
      rw [h1]
      simp [lookupH]
    · have h1 : updateH (p :: rest) a r = p :: updateH rest a r := by simp [updateH, hpa]
      simp only [lookupH, hpa, if_false, ite_false] at hs
      rw [h1]
      simp only [lookupH, hpa, if_false, ite_false]
      exact ih hs

theorem spellsB_nil_elim (h : Heap) (c : Option Nat) (hs : spellsB h c .nil = true) :
    c = none := by
  cases c with
  | none => rfl
  | some x => simp [spellsB] at hs

theorem spellsB_node_elim (h : Heap) (c : Option Nat) (a typ : Nat) (vs ks : Option Nat)
    (cs ns : CShape) (hs : spellsB h c (.node a typ vs ks cs ns) = true) :
    c = some a ∧ ∃ r, lookupH h a = some r ∧ r.typ = typ ∧ r.valuestring = vs ∧
      r.string = ks ∧ spellsB h r.child cs = true ∧ spellsB h r.next ns = true := by
  cases c with
  | none => simp [spellsB] at hs
  | some x =>
    unfold spellsB at hs
    cases hl : lookupH h x with
    | none => rw [hl] at hs; simp at hs
    | some r =>
      rw [hl] at hs
      simp only [Bool.and_eq_true, beq_iff_eq] at hs
      obtain ⟨⟨⟨⟨⟨hxa, htyp⟩, hvs⟩, hks⟩, hcs⟩, hns⟩ := hs
      subst hxa
      exact ⟨rfl, r, hl, htyp, hvs, hks, hcs, hns⟩

theorem spellsB_intro (h : Heap) (a typ : Nat) (vs ks : Option Nat) (cs ns : CShape)
    (r : CRec) (hl : lookupH h a = some r) (htyp : r.typ = typ) (hvs : r.valuestring = vs)
    (hks : r.string = ks) (hcs : spellsB h r.child cs = true)
    (hns : spellsB h r.next ns = true) :
    spellsB h (some a) (.node a typ vs ks cs ns) = true := by
  unfold spellsB
  rw [hl]
  simp [htyp, hvs, hks, hcs, hns]

theorem spellsB_agree (h h2 : Heap) (s : CShape) : ∀ (c : Option Nat),
    spellsB h c s = true → (∀ x ∈ s.addrs, lookupH h2 x = lookupH h x) →
    spellsB h2 c s = true := by
  induction s with
  | nil =>
    intro c hs _
    rw [spellsB_nil_elim h c hs]
    rfl
  | node a typ vs ks cs ns ihc ihn =>
    intro c hs hagree
    obtain ⟨hc, r, hl, htyp, hvs, hks, hcs, hns⟩ := spellsB_node_elim h c a typ vs ks cs ns hs
    subst hc
    have hla : lookupH h2 a = some r := by
      rw [hagree a (by simp [CShape.addrs]), hl]
    refine spellsB_intro h2 a typ vs ks cs ns r hla htyp hvs hks ?_ ?_
    · exact ihc r.child hcs (fun x hx => hagree x (by simp [CShape.addrs]; right; left; exact hx))
    · exact ihn r.next hns (fun x hx => hagree x (by simp [CShape.addrs]; right; right; exact hx))

theorem removeH_eq_filter (h : Heap) (a : Nat) :
    removeH h a = h.filter (fun p => p.1 != a) := by
  induction h with
  | nil => rfl
  | cons p rest ih =>
    by_cases hpa : p.1 = a <;> simp [removeH, List.filter_cons, hpa, ih]

theorem removeH_comm (h : Heap) (a b : Nat) :
    removeH (removeH h a) b = removeH (removeH h b) a := by
  simp only [removeH_eq_filter, List.filter_filter]
  exact List.filter_congr (fun x _ => by rw [Bool.and_comm])

theorem removeList_cons (h : Heap) (x : Nat) (l : List Nat) :
    removeList h (x :: l) = removeList (removeH h x) l := rfl

theorem removeH_removeList (l : List Nat) : ∀ (h : Heap) (a : Nat),
    removeH (removeList h l) a = removeList (removeH h a) l := by
  induction l with
  | nil => intro h a; rfl
  | cons x xs ih =>
    intro h a
    rw [removeList_cons, removeList_cons, ih, removeH_comm]

theorem removeList_append (h : Heap) (l1 l2 : List Nat) :
    removeList h (l1 ++ l2) = removeList (removeList h l1) l2 :=
  List.foldl_append _ _ _ _

theorem lookupH_removeList (l : List Nat) : ∀ (h : Heap) (x : Nat), x ∉ l →
    lookupH (removeList h l) x = lookupH h x := by
  induction l with
  | nil => intro h x _; rfl
  | cons y ys ih =>
    intro h x hx
    rw [removeList_cons, ih _ _ (by simp at hx; exact hx.2), lookupH_removeH,
      if_neg (by simp at hx; exact hx.1)]

theorem nodeEvents_append (e1 e2 : List FreeEvt) :
    nodeEvents (e1 ++ e2) = nodeEvents e1 ++ nodeEvents e2 := by
  induction e1 with
  | nil => rfl
  | cons e es ih => cases e <;> simp [nodeEvents, ih]

theorem nodeEvents_events (s : CShape) :
    (nodeEvents s.events).Perm s.addrs := by
  induction s with
  | nil => exact List.Perm.refl _
  | node a typ vs ks cs ns ihc ihn =>
    have h1 : nodeEvents (CShape.events (.node a typ vs ks cs ns)) =
        nodeEvents cs.events ++ (a :: nodeEvents ns.events) := by
      show nodeEvents (cs.events ++ _ ++ _ ++ FreeEvt.node a :: ns.events) = _
      rw [nodeEvents_append, nodeEvents_append, nodeEvents_append]
      cases vs <;> cases ks <;> simp [nodeEvents]
    rw [h1]
    show (nodeEvents cs.events ++ (a :: nodeEvents ns.events)).Perm
      (a :: (cs.addrs ++ ns.addrs))
    exact ((ihc.append (ihn.cons a)).trans List.perm_middle)

theorem delete_h_spec : ∀ (s : CShape) (f : Nat) (h : Heap) (c : Option Nat),
    spellsB h c s = true → s.addrs.Nodup → s.noRef = true →
    2 * s.scount + 1 ≤ f →
    cJSON_Delete_h f h c = some (removeList h s.addrs, s.events) := by
  intro s
  induction s with
  | nil =>
    intro f h c hs _ _ hf
    rw [spellsB_nil_elim h c hs]
    cases f with
    | zero => omega
    | succ f2 => rfl
  | node a typ vs ks cs ns ihc ihn =>
    intro f h c hs hnd hnr hf
    obtain ⟨hc, r, hl, htyp, hvs, hks, hcs, hns⟩ := spellsB_node_elim h c a typ vs ks cs ns hs
    subst hc
    simp only [CShape.addrs, List.nodup_cons, List.mem_append, List.nodup_append] at hnd
    obtain ⟨hna, hndc, hndn, hdisj⟩ := hnd
    simp only [CShape.noRef, Bool.and_eq_true, beq_iff_eq] at hnr
    obtain ⟨⟨href, hnrc⟩, hnrn⟩ := hnr
    simp only [CShape.scount] at hf
    cases f with
    | zero => omega
    | succ f2 =>
    have hchild : (if r.typ &&& cJSON_IsReference = 0 ∧ r.child ≠ none
        then cJSON_Delete_h f2 h r.child else some (h, [])) =
        some (removeList h cs.addrs, cs.events) := by
      cases cs with
      | nil =>
        rw [spellsB_nil_elim h r.child hcs]
        rw [if_neg (by simp)]
        rfl
      | node a2 typ2 vs2 ks2 cs2 ns2 =>
        obtain ⟨hc2, _⟩ := spellsB_node_elim h r.child a2 typ2 vs2 ks2 cs2 ns2 hcs
        rw [if_pos ⟨by rw [htyp]; exact href, by rw [hc2]; simp⟩]
        exact ihc f2 h r.child hcs hndc hnrc (by simp [CShape.scount] at hf ⊢; omega)
    have hagree : ∀ x ∈ ns.addrs,
        lookupH (removeH (removeList h cs.addrs) a) x = lookupH h x := by
      intro x hx
      rw [lookupH_removeH, if_neg (by intro hxa; exact hna (Or.inr (hxa ▸ hx))),
        lookupH_removeList _ _ _ (fun hxc => hdisj hxc hx)]
    have hns2 : spellsB (removeH (removeList h cs.addrs) a) r.next ns = true :=
      spellsB_agree h _ ns r.next hns hagree
    have hnext := ihn f2 (removeH (removeList h cs.addrs) a) r.next hns2 hndn hnrn
      (by omega)
    simp only [cJSON_Delete_h, hl, hchild, hnext]
    refine congrArg some (Prod.ext ?_ ?_)
    · show removeList (removeH (removeList h cs.addrs) a) ns.addrs =
        removeList h (a :: (cs.addrs ++ ns.addrs))
      rw [removeH_removeList, removeList_cons, removeList_append]
    · subst htyp hvs hks
      cases hv2 : r.valuestring <;> cases hk2 : r.string <;>
        simp [CShape.events, href, hv2, hk2]

theorem lookupH_removeList_mem (l : List Nat) : ∀ (h : Heap) (x : Nat), x ∈ l →
    lookupH (removeList h l) x = none := by
  induction l with
  | nil => intro h x hx; cases hx
  | cons y ys ih =>
    intro h x hx
    rw [removeList_cons]
    by_cases hxy : x ∈ ys
    · exact ih _ _ hxy
    · have hxy2 : x = y := by
        cases hx with
        | head => rfl
        | tail _ h2 => exact absurd h2 hxy
      rw [lookupH_removeList _ _ _ hxy, lookupH_removeH, if_pos hxy2]

/-- **C6**: `cJSON_Delete` cascades over following siblings. If the pointer
`c` spells a shape `s` — `c`'s own subtree together with the whole chain of
its following siblings — whose nodes are distinct and none of which is a
reference node, then with enough fuel the delete walks the entire chain: it
returns, removes from the heap exactly the addresses of every node of `s`
(each such address no longer resolves), and the node-free events it performs
are exactly those addresses. Instantiated below at the first element of a
3-element array: all three elements are freed. -/
theorem C6_cascade_delete (s : CShape) (h : Heap) (c : Option Nat) (f : Nat)
    (hs : spellsB h c s = true) (hnd : s.addrs.Nodup) (hnr : s.noRef = true)
    (hf : 2 * s.scount + 1 ≤ f) :
    cJSON_Delete_h f h c = some (removeList h s.addrs, s.events) ∧
      (nodeEvents s.events).Perm s.addrs ∧
      ∀ x ∈ s.addrs, lookupH (removeList h s.addrs) x = none :=
  ⟨delete_h_spec s f h c hs hnd hnr hf, nodeEvents_events s,
    fun x hx => lookupH_removeList_mem _ _ _ hx⟩

/-- C6 witness: a heap holding a 3-element sibling chain 1 → 2 → 3 of number
nodes (the children of a 3-element array); deleting the first element frees
all three. -/
theorem C6_cascade_delete_witness :
    (spellsB [(1, ⟨some 2, none, none, cJSON_Number, none, none⟩),
        (2, ⟨some 3, some 1, none, cJSON_Number, none, none⟩),
        (3, ⟨none, some 2, none, cJSON_Number, none, none⟩)] (some 1)
        (.node 1 cJSON_Number none none .nil
          (.node 2 cJSON_Number none none .nil
            (.node 3 cJSON_Number none none .nil .nil))) = true) ∧
    (cJSON_Delete_h 7 [(1, ⟨some 2, none, none, cJSON_Number, none, none⟩),
        (2, ⟨some 3, some 1, none, cJSON_Number, none, none⟩),
        (3, ⟨none, some 2, none, cJSON_Number, none, none⟩)] (some 1) =
      some (removeList [(1, ⟨some 2, none, none, cJSON_Number, none, none⟩),
        (2, ⟨some 3, some 1, none, cJSON_Number, none, none⟩),
        (3, ⟨none, some 2, none, cJSON_Number, none, none⟩)] [1, 2, 3],
        [FreeEvt.node 1, FreeEvt.node 2, FreeEvt.node 3]) ∧
      (nodeEvents [FreeEvt.node 1, FreeEvt.node 2, FreeEvt.node 3]).Perm [1, 2, 3] ∧
      ∀ x ∈ [1, 2, 3],
        lookupH (removeList [(1, ⟨some 2, none, none, cJSON_Number, none, none⟩),
          (2, ⟨some 3, some 1, none, cJSON_Number, none, none⟩),
          (3, ⟨none, some 2, none, cJSON_Number, none, none⟩)] [1, 2, 3]) x = none) :=
  ⟨by decide,
    C6_cascade_delete
      (.node 1 cJSON_Number none none .nil
        (.node 2 cJSON_Number none none .nil
          (.node 3 cJSON_Number none none .nil .nil)))
      [(1, ⟨some 2, none, none, cJSON_Number, none, none⟩),
        (2, ⟨some 3, some 1, none, cJSON_Number, none, none⟩),
        (3, ⟨none, some 2, none, cJSON_Number, none, none⟩)] (some 1) 7
      (by decide) (by decide) (by decide) (by decide)⟩

/-! ### C7: allocation cleanup on parse failure -/

theorem delP_live : ∀ (n : PNode) (st : ASt), (delP n st).live = st.live - ownedMS n := by
  intro n
  induction n with
  | nil => intro st; simp [delP, ownedMS]
  | mk i typ vs vi vd ks child nx ihc ihn =>
    intro st
    simp only [delP, ownedMS, ASt.free, ihn]
    by_cases hc : typ &&& cJSON_IsReference = 0 ∧ child ≠ PNode.nil <;>
      cases vs <;> cases ks <;>
      by_cases hr : typ &&& cJSON_IsReference = 0
    all_goals try simp_all [ihc]
    all_goals simp only [← Multiset.sub_singleton]
    all_goals simp [tsub_tsub, add_assoc]

theorem parse_string_cases (item : PNode) (s : List Nat) (st : ASt) :
    (∃ st2, parse_string item s st = .fail item st2 ∧ st2.live = st.live) ∨
    (∃ rest bs, parse_string item s st =
      .ok rest ((item.setTyp cJSON_String).setVS (some ⟨st.nextId, bs⟩))
        ⟨st.nextId + 1, st.live + {st.nextId}⟩) := by
  simp only [parse_string, ASt.alloc, ASt.free]
  split
  · exact Or.inl ⟨st, rfl, rfl⟩
  · split
    · exact Or.inl ⟨st, rfl, rfl⟩
    · split
      · refine Or.inl ⟨_, rfl, ?_⟩
        show (st.live + {st.nextId}).erase st.nextId = st.live
        rw [add_comm, Multiset.singleton_add, Multiset.erase_cons_head]
      · exact Or.inr ⟨_, _, rfl⟩

theorem ownedMS_setNext (c x : PNode) (hc : c ≠ .nil) (hn : c.next = .nil) :
    ownedMS (c.setNext x) = ownedMS c + ownedMS x := by
  cases c with
  | nil => exact absurd rfl hc
  | mk i t vs vi vd ks ch nx =>
    simp only [PNode.next] at hn
    subst hn
    simp [ownedMS, PNode.setNext, add_assoc]

theorem ownedMS_chainOf_append (n : PNode) (hn : n ≠ .nil) (hnx : n.next = .nil) :
    ∀ cs : List PNode, (∀ c ∈ cs, c ≠ .nil ∧ c.next = .nil) →
    ownedMS (chainOf (cs ++ [n])) = ownedMS (chainOf cs) + ownedMS n := by
  intro cs
  induction cs with
  | nil =>
    intro _
    simp [chainOf, ownedMS_setNext n .nil hn hnx, ownedMS]
  | cons c rest ih =>
    intro h
    have hc := h c (by simp)
    simp only [List.cons_append, chainOf]
    rw [ownedMS_setNext c _ hc.1 hc.2, ownedMS_setNext c _ hc.1 hc.2]
    have ih2 := ih (fun d hd => h d (by simp [hd]))
    simp only [List.append_eq] at ih2 ⊢
    rw [ih2, add_assoc]

theorem setNext_ne_nil (c x : PNode) (hc : c ≠ .nil) : c.setNext x ≠ .nil := by
  cases c with
  | nil => exact absurd rfl hc
  | mk i t vs vi vd ks ch nx => simp [PNode.setNext]

theorem parse_number_shape (item : PNode) (num : List Nat) :
    ∃ a b r2, parse_number item num = ((item.setNum a b).setTyp cJSON_Number, r2) :=
  ⟨_, _, _, rfl⟩

theorem parse_owned : ∀ f : Nat,
    (∀ item s st, item ≠ .nil → item.child = .nil → item.valuestring = none →
      presOwned item st (parse_value f item s st)) ∧
    (∀ item s st, item ≠ .nil → item.child = .nil → item.valuestring = none →
      presOwned item st (parse_array f item s st)) ∧
    (∀ item children s st, item ≠ .nil → item.child = .nil → item.valuestring = none →
      item.typ &&& cJSON_IsReference = 0 →
      (∀ c ∈ children, c ≠ .nil ∧ c.next = .nil) →
      presOwnedC item children st (arrLoop f item children s st)) ∧
    (∀ item s st, item ≠ .nil → item.child = .nil → item.valuestring = none →
      presOwned item st (parse_object f item s st)) ∧
    (∀ item children s st, item ≠ .nil → item.child = .nil → item.valuestring = none →
      item.typ &&& cJSON_IsReference = 0 →
      (∀ c ∈ children, c ≠ .nil ∧ c.next = .nil) →
      presOwnedC item children st (objLoop f item children s st)) := by
  intro f
  induction f with
  | zero =>
    refine ⟨?_, ?_, ?_, ?_, ?_⟩ <;> intros <;>
      simp [parse_value, parse_array, arrLoop, parse_object, objLoop, presOwned, presOwnedC]
  | succ f ih =>
    obtain ⟨ihv, iha, ihal, iho, ihol⟩ := ih
    refine ⟨?_, ?_, ?_, ?_, ?_⟩
    · -- parse_value
      intro item s st hn hch hvs
      cases item with
      | nil => exact absurd rfl hn
      | mk i t vs0 vi vd ks ch nx =>
      simp only [PNode.child] at hch
      simp only [PNode.valuestring] at hvs
      subst hch hvs
      simp only [parse_value]
      split
      · exact ⟨⟨0, by simp, by simp [PNode.setTyp, ownedMS]⟩, by simp [PNode.setTyp],
          by simp [PNode.setTyp, PNode.next]⟩
      · split
        · exact ⟨⟨0, by simp, by simp [PNode.setTyp, ownedMS]⟩, by simp [PNode.setTyp],
            by simp [PNode.setTyp, PNode.next]⟩
        · split
          · exact ⟨⟨0, by simp, by simp [PNode.setTyp, PNode.setVI, ownedMS]⟩,
              by simp [PNode.setTyp, PNode.setVI],
              by simp [PNode.setTyp, PNode.setVI, PNode.next]⟩
          · split
            · -- string
              rcases parse_string_cases (.mk i t none vi vd ks .nil nx) s st with
                ⟨st2, heq, hlive⟩ | ⟨rest, bs, heq⟩ <;> rw [heq]
              · exact ⟨⟨0, by simp [hlive], by simp⟩, by simp, rfl⟩
              · refine ⟨⟨{st.nextId}, by simp, ?_⟩,
                  by simp [PNode.setTyp, PNode.setVS],
                  by simp [PNode.setTyp, PNode.setVS, PNode.next]⟩
                simp [PNode.setTyp, PNode.setVS, ownedMS, cJSON_String, cJSON_IsReference]
                rw [if_pos (by decide : (16 : Nat) &&& 256 = 0)]
                abel
            · split
              · -- number
                obtain ⟨a, b, r2, hpn⟩ := parse_number_shape (.mk i t none vi vd ks .nil nx) s
                rw [hpn]
                exact ⟨⟨0, by simp, by simp [PNode.setTyp, PNode.setNum, ownedMS]⟩,
                  by simp [PNode.setTyp, PNode.setNum],
                  by simp [PNode.setTyp, PNode.setNum, PNode.next]⟩
              · split
                · -- array
                  exact iha _ s st (by simp) (by simp [PNode.child]) (by simp [PNode.valuestring])
                · split
                  · -- object
                    exact iho _ s st (by simp) (by simp [PNode.child]) (by simp [PNode.valuestring])
                  · exact ⟨⟨0, by simp, by simp⟩, by simp, rfl⟩
    · -- parse_array
      intro item s st hn hch hvs
      cases item with
      | nil => exact absurd rfl hn
      | mk i t vs0 vi vd ks ch nx =>
      simp only [PNode.child] at hch
      simp only [PNode.valuestring] at hvs
      subst hch hvs
      simp only [parse_array, cJSON_New_Item, ASt.alloc]
      split
      · exact ⟨⟨0, by simp, by simp⟩, by simp, rfl⟩
      · split
        · exact ⟨⟨0, by simp, by simp [PNode.setTyp, ownedMS]⟩, by simp [PNode.setTyp],
            by simp [PNode.setTyp, PNode.next]⟩
        · split
          · exact trivial
          · -- parse_value failed on the fresh element
            rename_i c0 st2 heq
            have hv := ihv (.mk st.nextId 0 none (some 0) 0 none .nil .nil)
              (skip (skip (s.drop 1))) ⟨st.nextId + 1, st.live + {st.nextId}⟩
              (by simp) (by simp [PNode.child]) (by simp [PNode.valuestring])
            rw [heq] at hv
            obtain ⟨⟨d, hd1, hd2⟩, hnn, hnx⟩ := hv
            simp only [PNode.next] at hnx
            simp only [ownedMS] at hd2
            simp at hd2
            have h1 : ownedMS (chainOf [c0]) = ownedMS c0 := by
              simp only [chainOf]
              rw [ownedMS_setNext c0 _ hnn hnx]
              simp [ownedMS]
            have hcn : chainOf [c0] ≠ PNode.nil := by
              simp only [chainOf]
              exact setNext_ne_nil c0 _ hnn
            refine ⟨⟨{st.nextId} + d, ?_, ?_⟩,
              by simp [PNode.setTyp, PNode.setChild],
              by simp [PNode.setTyp, PNode.setChild, PNode.next]⟩
            · rw [hd1]
              abel
            · simp only [PNode.setTyp, PNode.setChild, ownedMS, cJSON_Array, cJSON_IsReference]
              rw [if_pos ⟨by decide, hcn⟩, h1, hd2]
              simp only [ite_self, ← Multiset.singleton_add]
              try abel
          · -- parse_value succeeded: enter arrLoop
            rename_i s2 c0 st2 heq
            have hv := ihv (.mk st.nextId 0 none (some 0) 0 none .nil .nil)
              (skip (skip (s.drop 1))) ⟨st.nextId + 1, st.live + {st.nextId}⟩
              (by simp) (by simp [PNode.child]) (by simp [PNode.valuestring])
            rw [heq] at hv
            obtain ⟨⟨d, hd1, hd2⟩, hnn, hnx⟩ := hv
            simp only [PNode.next] at hnx
            simp only [ownedMS] at hd2
            simp at hd2
            have h1 : ownedMS (chainOf [c0]) = ownedMS c0 := by
              simp only [chainOf]
              rw [ownedMS_setNext c0 _ hnn hnx]
              simp [ownedMS]
            have hal := ihal ((PNode.mk i t none vi vd ks PNode.nil nx).setTyp cJSON_Array)
              [c0] (skip s2) st2 (by simp [PNode.setTyp])
              (by simp [PNode.setTyp, PNode.child]) (by simp [PNode.setTyp, PNode.valuestring])
              (by simp [PNode.setTyp, PNode.typ, cJSON_Array, cJSON_IsReference] <;> decide)
              (by intro c hc; simp at hc; subst hc; exact ⟨hnn, hnx⟩)
            revert hal
            cases arrLoop f ((PNode.mk i t none vi vd ks PNode.nil nx).setTyp cJSON_Array)
              [c0] (skip s2) st2 with
            | out => intro _; exact trivial
            | ok rest2 item2 st3 =>
              intro hal
              obtain ⟨⟨d2, h21, h22⟩, hn2, hnx2⟩ := hal
              refine ⟨⟨{st.nextId} + d + d2, ?_, ?_⟩, hn2, ?_⟩
              · rw [h21, hd1]
                abel
              · rw [h22, h1, hd2]
                simp only [PNode.setTyp, ownedMS, ite_self, ← Multiset.singleton_add]
                try abel
              · rw [hnx2]
                simp [PNode.setTyp, PNode.next]
            | fail item2 st3 =>
              intro hal
              obtain ⟨⟨d2, h21, h22⟩, hn2, hnx2⟩ := hal
              refine ⟨⟨{st.nextId} + d + d2, ?_, ?_⟩, hn2, ?_⟩
              · rw [h21, hd1]
                abel
              · rw [h22, h1, hd2]
                simp only [PNode.setTyp, ownedMS, ite_self, ← Multiset.singleton_add]
                try abel
              · rw [hnx2]
                simp [PNode.setTyp, PNode.next]
    · -- arrLoop
      intro item children s st hn hch hvs ht hcs
      cases item with
      | nil => exact absurd rfl hn
      | mk i t vs0 vi vd ks ch nx =>
      simp only [PNode.child] at hch
      simp only [PNode.valuestring] at hvs
      simp only [PNode.typ] at ht
      subst hch hvs
      have key : ∀ X, ownedMS (PNode.mk i t none vi vd ks X nx) =
          ownedMS X + ownedMS (PNode.mk i t none vi vd ks PNode.nil nx) := by
        intro X
        by_cases hX : X = PNode.nil
        · subst hX; simp [ownedMS]
        · simp only [ownedMS]
          rw [if_pos ⟨ht, hX⟩, if_neg (by simp)]
          simp
          abel
      simp only [arrLoop, cJSON_New_Item, ASt.alloc]
      split
      · split
        · refine ⟨⟨0, by simp, ?_⟩, by simp [PNode.setChild],
            by simp [PNode.setChild, PNode.next]⟩
          simp only [PNode.setChild]
          rw [key (chainOf children)]
          abel
        · refine ⟨⟨0, by simp, ?_⟩, by simp [PNode.setChild],
            by simp [PNode.setChild, PNode.next]⟩
          simp only [PNode.setChild]
          rw [key (chainOf children)]
          abel
      · split
        · exact trivial
        · rename_i ni st2 heq
          have hv := ihv (.mk st.nextId 0 none (some 0) 0 none .nil .nil)
            (skip (s.drop 1)) ⟨st.nextId + 1, st.live + {st.nextId}⟩
            (by simp) (by simp [PNode.child]) (by simp [PNode.valuestring])
          rw [heq] at hv
          obtain ⟨⟨d, hd1, hd2⟩, hnn, hnx⟩ := hv
          simp only [PNode.next] at hnx
          simp only [ownedMS] at hd2
          simp at hd2
          have happ := ownedMS_chainOf_append ni hnn hnx children hcs
          refine ⟨⟨{st.nextId} + d, ?_, ?_⟩, by simp [PNode.setChild],
            by simp [PNode.setChild, PNode.next]⟩
          · rw [hd1]
            abel
          · simp only [PNode.setChild]
            rw [key (chainOf (children ++ [ni])), happ, hd2]
            simp only [← Multiset.singleton_add]
            try abel
        · rename_i s2 ni st2 heq
          have hv := ihv (.mk st.nextId 0 none (some 0) 0 none .nil .nil)
            (skip (s.drop 1)) ⟨st.nextId + 1, st.live + {st.nextId}⟩
            (by simp) (by simp [PNode.child]) (by simp [PNode.valuestring])
          rw [heq] at hv
          obtain ⟨⟨d, hd1, hd2⟩, hnn, hnx⟩ := hv
          simp only [PNode.next] at hnx
          simp only [ownedMS] at hd2
          simp at hd2
          have happ := ownedMS_chainOf_append ni hnn hnx children hcs
          have hal := ihal (PNode.mk i t none vi vd ks PNode.nil nx) (children ++ [ni])
            (skip s2) st2 (by simp) (by simp [PNode.child]) (by simp [PNode.valuestring])
            (by simp only [PNode.typ]; exact ht)
            (by
              intro c hc
              rcases List.mem_append.mp hc with h | h
              · exact hcs c h
              · simp at h
                subst h
                exact ⟨hnn, hnx⟩)
          revert hal
          cases arrLoop f (PNode.mk i t none vi vd ks PNode.nil nx) (children ++ [ni])
            (skip s2) st2 with
          | out => intro _; exact trivial
          | ok rest2 item2 st3 =>
            intro hal
            obtain ⟨⟨d2, h21, h22⟩, hn2, hnx2⟩ := hal
            refine ⟨⟨{st.nextId} + d + d2, ?_, ?_⟩, hn2, hnx2⟩
            · rw [h21, hd1]
              abel
            · rw [h22, happ, hd2]
              simp only [← Multiset.singleton_add]
              try abel
          | fail item2 st3 =>
            intro hal
            obtain ⟨⟨d2, h21, h22⟩, hn2, hnx2⟩ := hal
            refine ⟨⟨{st.nextId} + d + d2, ?_, ?_⟩, hn2, hnx2⟩
            · rw [h21, hd1]
              abel
            · rw [h22, happ, hd2]
              simp only [← Multiset.singleton_add]
              try abel
    · -- parse_object
      intro item s st hn hch hvs
      cases item with
      | nil => exact absurd rfl hn
      | mk i t vs0 vi vd ks ch nx =>
      simp only [PNode.child] at hch
      simp only [PNode.valuestring] at hvs
      subst hch hvs
      have key : ∀ X, ownedMS (PNode.mk i cJSON_Object none vi vd ks X nx) =
          ownedMS X + ownedMS (PNode.mk i t none vi vd ks PNode.nil nx) := by
        intro X
        by_cases hX : X = PNode.nil
        · subst hX; simp [ownedMS]
        · simp only [ownedMS]
          rw [if_pos ⟨(by decide : cJSON_Object &&& cJSON_IsReference = 0), hX⟩,
            if_neg (by simp)]
          simp
          abel
      simp only [parse_object, cJSON_New_Item, ASt.alloc]
      split
      · exact ⟨⟨0, by simp, by simp⟩, by simp, rfl⟩
      · split
        · exact ⟨⟨0, by simp, by simp [PNode.setTyp, ownedMS]⟩, by simp [PNode.setTyp],
            by simp [PNode.setTyp, PNode.next]⟩
        · rcases parse_string_cases (.mk st.nextId 0 none (some 0) 0 none .nil .nil)
            (skip (skip (s.drop 1))) ⟨st.nextId + 1, st.live + {st.nextId}⟩ with
            ⟨st2, heq, hlive⟩ | ⟨rest, bs, heq⟩ <;> rw [heq]
          · have h1 : ownedMS (chainOf [PNode.mk st.nextId 0 none (some 0) 0 none PNode.nil
                PNode.nil]) = {st.nextId} := by
              simp only [chainOf]
              rw [ownedMS_setNext _ _ (by simp) (by simp [PNode.next])]
              simp [ownedMS]
            refine ⟨⟨{st.nextId}, by simp [hlive], ?_⟩,
              by simp [PNode.setTyp, PNode.setChild],
              by simp [PNode.setTyp, PNode.setChild, PNode.next]⟩
            simp only [PNode.setTyp, PNode.setChild]
            rw [key _, h1]
            abel
          · simp only [PNode.setTyp, PNode.setVS, PNode.setKey, PNode.valuestring]
            split
            · -- missing ':'
              have h1 : ownedMS (chainOf [PNode.mk st.nextId cJSON_String none (some 0) 0
                  (some ⟨st.nextId + 1, bs⟩) PNode.nil PNode.nil]) =
                  {st.nextId + 1} + {st.nextId} := by
                simp only [chainOf]
                rw [ownedMS_setNext _ _ (by simp) (by simp [PNode.next])]
                simp [ownedMS]
                try abel
              refine ⟨⟨{st.nextId} + {st.nextId + 1}, ?_, ?_⟩,
                by simp [PNode.setChild], by simp [PNode.setChild, PNode.next]⟩
              · simp
                simp only [← Multiset.singleton_add]
                abel
              · simp only [PNode.setChild]
                rw [key _, h1]
                abel
            · -- has ':': parse the member value
              split
              · exact trivial
              · rename_i c1 st2 heq2
                have hv := ihv (PNode.mk st.nextId cJSON_String none (some 0) 0
                    (some ⟨st.nextId + 1, bs⟩) PNode.nil PNode.nil)
                  (skip ((skip rest).drop 1))
                  ⟨st.nextId + 1 + 1, st.live + {st.nextId} + {st.nextId + 1}⟩
                  (by simp) (by simp [PNode.child]) (by simp [PNode.valuestring])
                rw [heq2] at hv
                obtain ⟨⟨d, hd1, hd2⟩, hnn, hnx⟩ := hv
                simp only [PNode.next] at hnx
                simp only [ownedMS] at hd2
                simp at hd2
                have h1 : ownedMS (chainOf [c1]) = ownedMS c1 := by
                  simp only [chainOf]
                  rw [ownedMS_setNext c1 _ hnn hnx]
                  simp [ownedMS]
                refine ⟨⟨{st.nextId} + {st.nextId + 1} + d, ?_, ?_⟩,
                  by simp [PNode.setChild], by simp [PNode.setChild, PNode.next]⟩
                · rw [hd1]
                  simp
                  simp only [← Multiset.singleton_add]
                  abel
                · simp only [PNode.setChild]
                  rw [key _, h1, hd2]
                  simp only [← Multiset.singleton_add]
                  try abel
              · rename_i s3 c1 st2 heq2
                have hv := ihv (PNode.mk st.nextId cJSON_String none (some 0) 0
                    (some ⟨st.nextId + 1, bs⟩) PNode.nil PNode.nil)
                  (skip ((skip rest).drop 1))
                  ⟨st.nextId + 1 + 1, st.live + {st.nextId} + {st.nextId + 1}⟩
                  (by simp) (by simp [PNode.child]) (by simp [PNode.valuestring])
                rw [heq2] at hv
                obtain ⟨⟨d, hd1, hd2⟩, hnn, hnx⟩ := hv
                simp only [PNode.next] at hnx
                simp only [ownedMS] at hd2
                simp at hd2
                have h1 : ownedMS (chainOf [c1]) = ownedMS c1 := by
                  simp only [chainOf]
                  rw [ownedMS_setNext c1 _ hnn hnx]
                  simp [ownedMS]
                have hol := ihol (PNode.mk i cJSON_Object none vi vd ks PNode.nil nx) [c1]
                  (skip s3) st2 (by simp) (by simp [PNode.child]) (by simp [PNode.valuestring])
                  (by simp [PNode.typ] <;> decide)
                  (by intro c hc; simp at hc; subst hc; exact ⟨hnn, hnx⟩)
                revert hol
                cases objLoop f (PNode.mk i cJSON_Object none vi vd ks PNode.nil nx) [c1]
                  (skip s3) st2 with
                | out => intro _; exact trivial
                | ok rest2 item2 st3 =>
                  intro hol
                  obtain ⟨⟨d2, h21, h22⟩, hn2, hnx2⟩ := hol
                  refine ⟨⟨{st.nextId} + {st.nextId + 1} + d + d2, ?_, ?_⟩, hn2, ?_⟩
                  · rw [h21, hd1]
                    simp
                    simp only [← Multiset.singleton_add]
                    abel
                  · rw [h22, h1, hd2]
                    simp only [ownedMS, ite_self, ← Multiset.singleton_add]
                    try abel
                  · rw [hnx2]
                    simp [PNode.next]
                | fail item2 st3 =>
                  intro hol
                  obtain ⟨⟨d2, h21, h22⟩, hn2, hnx2⟩ := hol
                  refine ⟨⟨{st.nextId} + {st.nextId + 1} + d + d2, ?_, ?_⟩, hn2, ?_⟩
                  · rw [h21, hd1]
                    simp
                    simp only [← Multiset.singleton_add]
                    abel
                  · rw [h22, h1, hd2]
                    simp only [ownedMS, ite_self, ← Multiset.singleton_add]
                    try abel
                  · rw [hnx2]
                    simp [PNode.next]
    · -- objLoop
      intro item children s st hn hch hvs ht hcs
      cases item with
      | nil => exact absurd rfl hn
      | mk i t vs0 vi vd ks ch nx =>
      simp only [PNode.child] at hch
      simp only [PNode.valuestring] at hvs
      simp only [PNode.typ] at ht
      subst hch hvs
      have key : ∀ X, ownedMS (PNode.mk i t none vi vd ks X nx) =
          ownedMS X + ownedMS (PNode.mk i t none vi vd ks PNode.nil nx) := by
        intro X
        by_cases hX : X = PNode.nil
        · subst hX; simp [ownedMS]
        · simp only [ownedMS]
          rw [if_pos ⟨ht, hX⟩, if_neg (by simp)]
          simp
          abel
      simp only [objLoop, cJSON_New_Item, ASt.alloc]
      split
      · split
        · refine ⟨⟨0, by simp, ?_⟩, by simp [PNode.setChild],
            by simp [PNode.setChild, PNode.next]⟩
          simp only [PNode.setChild]
          rw [key (chainOf children)]
          abel
        · refine ⟨⟨0, by simp, ?_⟩, by simp [PNode.setChild],
            by simp [PNode.setChild, PNode.next]⟩
          simp only [PNode.setChild]
          rw [key (chainOf children)]
          abel
      · rcases parse_string_cases (.mk st.nextId 0 none (some 0) 0 none .nil .nil)
          (skip (s.drop 1)) ⟨st.nextId + 1, st.live + {st.nextId}⟩ with
          ⟨st2, heq, hlive⟩ | ⟨rest, bs, heq⟩ <;> rw [heq]
        · have hfr : ownedMS (PNode.mk st.nextId 0 none (some 0) 0 none PNode.nil PNode.nil) =
              {st.nextId} := by simp [ownedMS]
          have happ := ownedMS_chainOf_append
            (PNode.mk st.nextId 0 none (some 0) 0 none PNode.nil PNode.nil)
            (by simp) (by simp [PNode.next]) children hcs
          refine ⟨⟨{st.nextId}, by simp [hlive], ?_⟩, by simp [PNode.setChild],
            by simp [PNode.setChild, PNode.next]⟩
          simp only [PNode.setChild]
          rw [key _, happ, hfr]
          abel
        · simp only [PNode.setTyp, PNode.setVS, PNode.setKey, PNode.valuestring]
          split
          · -- missing ':'
            have hc0 : ownedMS (PNode.mk st.nextId cJSON_String none (some 0) 0
                (some ⟨st.nextId + 1, bs⟩) PNode.nil PNode.nil) =
                {st.nextId + 1} + {st.nextId} := by
              simp [ownedMS]
              try abel
            have happ := ownedMS_chainOf_append
              (PNode.mk st.nextId cJSON_String none (some 0) 0
                (some ⟨st.nextId + 1, bs⟩) PNode.nil PNode.nil)
              (by simp) (by simp [PNode.next]) children hcs
            refine ⟨⟨{st.nextId} + {st.nextId + 1}, ?_, ?_⟩,
              by simp [PNode.setChild], by simp [PNode.setChild, PNode.next]⟩
            · simp
              simp only [← Multiset.singleton_add]
              abel
            · simp only [PNode.setChild]
              rw [key _, happ, hc0]
              abel
          · split
            · exact trivial
            · rename_i c1 st2 heq2
              have hv := ihv (PNode.mk st.nextId cJSON_String none (some 0) 0
                  (some ⟨st.nextId + 1, bs⟩) PNode.nil PNode.nil)
                (skip ((skip rest).drop 1))
                ⟨st.nextId + 1 + 1, st.live + {st.nextId} + {st.nextId + 1}⟩
                (by simp) (by simp [PNode.child]) (by simp [PNode.valuestring])
              rw [heq2] at hv
              obtain ⟨⟨d, hd1, hd2⟩, hnn, hnx⟩ := hv
              simp only [PNode.next] at hnx
              simp only [ownedMS] at hd2
              simp at hd2
              have happ := ownedMS_chainOf_append c1 hnn hnx children hcs
              refine ⟨⟨{st.nextId} + {st.nextId + 1} + d, ?_, ?_⟩,
                by simp [PNode.setChild], by simp [PNode.setChild, PNode.next]⟩
              · rw [hd1]
                simp
                simp only [← Multiset.singleton_add]
                abel
              · simp only [PNode.setChild]
                rw [key _, happ, hd2]
                simp only [← Multiset.singleton_add]
                try abel
            · rename_i s3 c1 st2 heq2
              have hv := ihv (PNode.mk st.nextId cJSON_String none (some 0) 0
                  (some ⟨st.nextId + 1, bs⟩) PNode.nil PNode.nil)
                (skip ((skip rest).drop 1))
                ⟨st.nextId + 1 + 1, st.live + {st.nextId} + {st.nextId + 1}⟩
                (by simp) (by simp [PNode.child]) (by simp [PNode.valuestring])
              rw [heq2] at hv
              obtain ⟨⟨d, hd1, hd2⟩, hnn, hnx⟩ := hv
              simp only [PNode.next] at hnx
              simp only [ownedMS] at hd2
              simp at hd2
              have happ := ownedMS_chainOf_append c1 hnn hnx children hcs
              have hol := ihol (PNode.mk i t none vi vd ks PNode.nil nx) (children ++ [c1])
                (skip s3) st2 (by simp) (by simp [PNode.child]) (by simp [PNode.valuestring])
                (by simp only [PNode.typ]; exact ht)
                (by
                  intro c hc
                  rcases List.mem_append.mp hc with h | h
                  · exact hcs c h
                  · simp at h
                    subst h
                    exact ⟨hnn, hnx⟩)
              revert hol
              cases objLoop f (PNode.mk i t none vi vd ks PNode.nil nx) (children ++ [c1])
                (skip s3) st2 with
              | out => intro _; exact trivial
              | ok rest2 item2 st3 =>
                intro hol
                obtain ⟨⟨d2, h21, h22⟩, hn2, hnx2⟩ := hol
                refine ⟨⟨{st.nextId} + {st.nextId + 1} + d + d2, ?_, ?_⟩, hn2, hnx2⟩
                · rw [h21, hd1]
                  simp
                  simp only [← Multiset.singleton_add]
                  abel
                · rw [h22, happ, hd2]
                  simp only [← Multiset.singleton_add]
                  try abel
              | fail item2 st3 =>
                intro hol
                obtain ⟨⟨d2, h21, h22⟩, hn2, hnx2⟩ := hol
                refine ⟨⟨{st.nextId} + {st.nextId + 1} + d + d2, ?_, ?_⟩, hn2, hnx2⟩
                · rw [h21, hd1]
                  simp
                  simp only [← Multiset.singleton_add]
                  abel
                · rw [h22, happ, hd2]
                  simp only [← Multiset.singleton_add]
                  try abel

theorem parseWithLength_fail_live (fuel : Nat) (value : List Nat) (buffer_length : Nat)
    (st' : ASt) (h : cJSON_ParseWithLength fuel value buffer_length = some (none, st')) :
    st'.live = 0 := by
  by_cases hbl : buffer_length = 0
  · simp [cJSON_ParseWithLength, hbl] at h
    subst h
    rfl
  · simp only [cJSON_ParseWithLength, hbl, if_false, ite_false, cJSON_New_Item, ASt.alloc] at h
    cases hpv : parse_value fuel (PNode.mk 0 0 none (some 0) 0 none PNode.nil PNode.nil)
        (skip value) ⟨0 + 1, 0 + {0}⟩ with
    | out => rw [hpv] at h; simp at h
    | ok rest c0 st2 => rw [hpv] at h; simp at h
    | fail c0 st2 =>
      rw [hpv] at h
      simp at h
      have hv := (parse_owned fuel).1 (PNode.mk 0 0 none (some 0) 0 none PNode.nil PNode.nil)
        (skip value) ⟨0 + 1, 0 + {0}⟩ (by simp) (by simp [PNode.child])
        (by simp [PNode.valuestring])
      rw [hpv] at hv
      obtain ⟨⟨d, hd1, hd2⟩, -, -⟩ := hv
      simp only [ownedMS] at hd2
      simp at hd1 hd2
      subst h
      rw [delP_live, hd1, hd2]
      simp only [← Multiset.singleton_add]
      simp [tsub_self]

/-- **C7**: on every input on which parsing fails, both parse entry points
return no tree, and every node and string allocation made during the failed
attempt has been released again when the failure is reported: the multiset of
live allocation ids in the returned allocation state is empty, exactly as it
was before the call. (A returned tree is `none` exactly on the failing runs,
by definition of `cJSON_ParseWithLength`; the substance proved here is that
the internal `cJSON_Delete` of the partial tree releases every allocation the
attempt made.) -/
theorem C7_failed_parse_cleanup (fuel : Nat) (value : List Nat) (buffer_length : Nat)
    (st' : ASt) :
    (cJSON_ParseWithLength fuel value buffer_length = some (none, st') → st'.live = 0) ∧
    (cJSON_Parse fuel value = some (none, st') → st'.live = 0) :=
  ⟨fun h => parseWithLength_fail_live fuel value buffer_length st' h,
   fun h => parseWithLength_fail_live fuel value (strlenB value) st' h⟩

/-- C7 witness: parsing the 1-byte document `x` fails; the returned
allocation state has an empty live multiset (the root node allocated by the
attempt was freed again). -/
theorem C7_failed_parse_cleanup_witness :
    cJSON_ParseWithLength 1 [120] 1 = some (none, ⟨1, 0⟩) ∧ (⟨1, 0⟩ : ASt).live = 0 :=
  ⟨by decide, (C7_failed_parse_cleanup 1 [120] 1 ⟨1, 0⟩).1 (by decide)⟩

/-! ### C10: detach-then-delete removes exactly one element -/

theorem elemsAddrs_append (xs ys : List CShape) :
    elemsAddrs (xs ++ ys) = elemsAddrs xs ++ elemsAddrs ys := by
  induction xs with
  | nil => rfl
  | cons x rest ih => simp [elemsAddrs, ih]

theorem chainB_nil_elim (h : Heap) (p c : Option Nat) (hc : chainB h p c [] = true) :
    c = none := by
  simpa [chainB] using hc

theorem chainB_cons_elim (h : Heap) (p c : Option Nat) (a t : Nat) (vs ks : Option Nat)
    (cs nsh : CShape) (rest : List CShape)
    (hc : chainB h p c (.node a t vs ks cs nsh :: rest) = true) :
    nsh = .nil ∧ c = some a ∧ ∃ r, lookupH h a = some r ∧ r.prev = p ∧ r.typ = t ∧
      r.valuestring = vs ∧ r.string = ks ∧ spellsB h r.child cs = true ∧
      chainB h (some a) r.next rest = true := by
  unfold chainB at hc
  cases hl : lookupH h a with
  | none =>
    rw [hl] at hc
    simp at hc
  | some r =>
    rw [hl] at hc
    simp only [Bool.and_eq_true, beq_iff_eq] at hc
    obtain ⟨⟨hnsh, hca⟩, ⟨⟨⟨⟨⟨hp, ht⟩, hvs⟩, hks⟩, hsp⟩, hrest⟩⟩ := hc
    exact ⟨hnsh, hca, r, rfl, hp, ht, hvs, hks, hsp, hrest⟩

theorem chainB_cons_intro (h : Heap) (p : Option Nat) (a t : Nat) (vs ks : Option Nat)
    (cs : CShape) (rest : List CShape) (r : CRec)
    (hl : lookupH h a = some r) (hp : r.prev = p) (ht : r.typ = t)
    (hvs : r.valuestring = vs) (hks : r.string = ks) (hsp : spellsB h r.child cs = true)
    (hrest : chainB h (some a) r.next rest = true) :
    chainB h p (some a) (.node a t vs ks cs .nil :: rest) = true := by
  unfold chainB
  rw [hl]
  simp [hp, ht, hvs, hks, hsp, hrest]

theorem chainSeg_nil_elim (h : Heap) (p c p2 c2 : Option Nat)
    (hc : chainSeg h p c [] p2 c2 = true) : p2 = p ∧ c2 = c := by
  have := hc
  simp only [chainSeg, Bool.and_eq_true, beq_iff_eq] at this
  exact ⟨this.1.symm, this.2.symm⟩

theorem chainSeg_nil_intro (h : Heap) (p c : Option Nat) :
    chainSeg h p c [] p c = true := by
  simp [chainSeg]

theorem chainSeg_cons_elim (h : Heap) (p c p2 c2 : Option Nat) (a t : Nat)
    (vs ks : Option Nat) (cs nsh : CShape) (rest : List CShape)
    (hc : chainSeg h p c (.node a t vs ks cs nsh :: rest) p2 c2 = true) :
    nsh = .nil ∧ c = some a ∧ ∃ r, lookupH h a = some r ∧ r.prev = p ∧ r.typ = t ∧
      r.valuestring = vs ∧ r.string = ks ∧ spellsB h r.child cs = true ∧
      chainSeg h (some a) r.next rest p2 c2 = true := by
  unfold chainSeg at hc
  cases hl : lookupH h a with
  | none =>
    rw [hl] at hc
    simp at hc
  | some r =>
    rw [hl] at hc
    simp only [Bool.and_eq_true, beq_iff_eq] at hc
    obtain ⟨⟨hnsh, hca⟩, ⟨⟨⟨⟨⟨hp, ht⟩, hvs⟩, hks⟩, hsp⟩, hrest⟩⟩ := hc
    exact ⟨hnsh, hca, r, rfl, hp, ht, hvs, hks, hsp, hrest⟩

theorem chainSeg_cons_intro (h : Heap) (p p2 c2 : Option Nat) (a t : Nat)
    (vs ks : Option Nat) (cs : CShape) (rest : List CShape) (r : CRec)
    (hl : lookupH h a = some r) (hp : r.prev = p) (ht : r.typ = t)
    (hvs : r.valuestring = vs) (hks : r.string = ks) (hsp : spellsB h r.child cs = true)
    (hrest : chainSeg h (some a) r.next rest p2 c2 = true) :
    chainSeg h p (some a) (.node a t vs ks cs .nil :: rest) p2 c2 = true := by
  unfold chainSeg
  rw [hl]
  simp [hp, ht, hvs, hks, hsp, hrest]

theorem chainB_append_ex (h : Heap) (ys : List CShape) : ∀ (xs : List CShape) (p c : Option Nat),
    chainB h p c (xs ++ ys) = true →
    ∃ p2 c2, chainSeg h p c xs p2 c2 = true ∧ chainB h p2 c2 ys = true := by
  intro xs
  induction xs with
  | nil =>
    intro p c hc
    exact ⟨p, c, chainSeg_nil_intro h p c, hc⟩
  | cons x rest ih =>
    intro p c hc
    cases x with
    | nil => simp [chainB] at hc
    | node a t vs ks cs nsh =>
      obtain ⟨hnsh, hca, r, hl, hp, ht, hvs, hks, hsp, hrest⟩ :=
        chainB_cons_elim h p c a t vs ks cs nsh (rest ++ ys) hc
      subst hnsh hca
      obtain ⟨p2, c2, hseg, hys⟩ := ih (some a) r.next hrest
      exact ⟨p2, c2, chainSeg_cons_intro h p p2 c2 a t vs ks cs rest r hl hp ht hvs hks hsp hseg,
        hys⟩

theorem chainB_compose (h : Heap) (ys : List CShape) : ∀ (xs : List CShape) (p c p2 c2 : Option Nat),
    chainSeg h p c xs p2 c2 = true → chainB h p2 c2 ys = true →
    chainB h p c (xs ++ ys) = true := by
  intro xs
  induction xs with
  | nil =>
    intro p c p2 c2 hseg hys
    obtain ⟨h1, h2⟩ := chainSeg_nil_elim h p c p2 c2 hseg
    subst h1 h2
    exact hys
  | cons x rest ih =>
    intro p c p2 c2 hseg hys
    cases x with
    | nil => simp [chainSeg] at hseg
    | node a t vs ks cs nsh =>
      obtain ⟨hnsh, hca, r, hl, hp, ht, hvs, hks, hsp, hrest⟩ :=
        chainSeg_cons_elim h p c p2 c2 a t vs ks cs nsh rest hseg
      subst hnsh hca
      exact chainB_cons_intro h p a t vs ks cs (rest ++ ys) r hl hp ht hvs hks hsp
        (ih (some a) r.next p2 c2 hrest hys)

theorem chainB_agree (h h2 : Heap) : ∀ (es : List CShape) (p c : Option Nat),
    chainB h p c es = true →
    (∀ x ∈ elemsAddrs es, lookupH h2 x = lookupH h x) →
    chainB h2 p c es = true := by
  intro es
  induction es with
  | nil =>
    intro p c hc _
    exact hc
  | cons x rest ih =>
    intro p c hc hagree
    cases x with
    | nil => simp [chainB] at hc
    | node a t vs ks cs nsh =>
      obtain ⟨hnsh, hca, r, hl, hp, ht, hvs, hks, hsp, hrest⟩ :=
        chainB_cons_elim h p c a t vs ks cs nsh rest hc
      subst hnsh hca
      have hla : lookupH h2 a = some r := by
        rw [hagree a (by simp [elemsAddrs, CShape.addrs]), hl]
      refine chainB_cons_intro h2 p a t vs ks cs rest r hla hp ht hvs hks ?_ ?_
      · exact spellsB_agree h h2 cs r.child hsp (fun x hx =>
          hagree x (by simp [elemsAddrs, CShape.addrs]; exact Or.inr (Or.inl hx)))
      · exact ih (some a) r.next hrest (fun x hx =>
          hagree x (by simp [elemsAddrs, CShape.addrs]; right; right; exact hx))

theorem chainSeg_agree (h h2 : Heap) : ∀ (es : List CShape) (p c p2 c2 : Option Nat),
    chainSeg h p c es p2 c2 = true →
    (∀ x ∈ elemsAddrs es, lookupH h2 x = lookupH h x) →
    chainSeg h2 p c es p2 c2 = true := by
  intro es
  induction es with
  | nil =>
    intro p c p2 c2 hc _
    exact hc
  | cons x rest ih =>
    intro p c p2 c2 hc hagree
    cases x with
    | nil => simp [chainSeg] at hc
    | node a t vs ks cs nsh =>
      obtain ⟨hnsh, hca, r, hl, hp, ht, hvs, hks, hsp, hrest⟩ :=
        chainSeg_cons_elim h p c p2 c2 a t vs ks cs nsh rest hc
      subst hnsh hca
      have hla : lookupH h2 a = some r := by
        rw [hagree a (by simp [elemsAddrs, CShape.addrs]), hl]
      refine chainSeg_cons_intro h2 p p2 c2 a t vs ks cs rest r hla hp ht hvs hks ?_ ?_
      · exact spellsB_agree h h2 cs r.child hsp (fun x hx =>
          hagree x (by simp [elemsAddrs, CShape.addrs]; exact Or.inr (Or.inl hx)))
      · exact ih (some a) r.next p2 c2 hrest (fun x hx =>
          hagree x (by simp [elemsAddrs, CShape.addrs]; right; right; exact hx))

theorem walkNext_seg (h : Heap) : ∀ (xs : List CShape) (p c p2 c2 : Option Nat),
    chainSeg h p c xs p2 c2 = true → walkNext h xs.length c = c2 := by
  intro xs
  induction xs with
  | nil =>
    intro p c p2 c2 hseg
    obtain ⟨-, h2⟩ := chainSeg_nil_elim h p c p2 c2 hseg
    simpa [walkNext] using h2.symm
  | cons x rest ih =>
    intro p c p2 c2 hseg
    cases x with
    | nil => simp [chainSeg] at hseg
    | node a t vs ks cs nsh =>
      obtain ⟨hnsh, hca, r, hl, hp, ht, hvs, hks, hsp, hrest⟩ :=
        chainSeg_cons_elim h p c p2 c2 a t vs ks cs nsh rest hseg
      subst hca
      show walkNext h (rest.length + 1) (some a) = c2
      simp only [walkNext, hl, Option.bind]
      exact ih (some a) r.next p2 c2 hrest

theorem chainSeg_append_ex (h : Heap) (ys : List CShape) : ∀ (xs : List CShape)
    (p c p3 c3 : Option Nat),
    chainSeg h p c (xs ++ ys) p3 c3 = true →
    ∃ p2 c2, chainSeg h p c xs p2 c2 = true ∧ chainSeg h p2 c2 ys p3 c3 = true := by
  intro xs
  induction xs with
  | nil =>
    intro p c p3 c3 hc
    exact ⟨p, c, chainSeg_nil_intro h p c, hc⟩
  | cons x rest ih =>
    intro p c p3 c3 hc
    cases x with
    | nil => simp [chainSeg] at hc
    | node a t vs ks cs nsh =>
      obtain ⟨hnsh, hca, r, hl, hp, ht, hvs, hks, hsp, hrest⟩ :=
        chainSeg_cons_elim h p c p3 c3 a t vs ks cs nsh (rest ++ ys) hc
      subst hnsh hca
      obtain ⟨p2, c2, hseg, hys⟩ := ih (some a) r.next p3 c3 hrest
      exact ⟨p2, c2,
        chainSeg_cons_intro h p p2 c2 a t vs ks cs rest r hl hp ht hvs hks hsp hseg, hys⟩

theorem chainSeg_ne_nil_first (h : Heap) (xs : List CShape) (p c p2 c2 : Option Nat)
    (hne : xs ≠ []) (hc : chainSeg h p c xs p2 c2 = true) :
    ∃ a0, c = some a0 ∧ a0 ∈ elemsAddrs xs := by
  cases xs with
  | nil => exact absurd rfl hne
  | cons x rest =>
    cases x with
    | nil => simp [chainSeg] at hc
    | node a t vs ks cs nsh =>
      obtain ⟨hnsh, hca, -⟩ := chainSeg_cons_elim h p c p2 c2 a t vs ks cs nsh rest hc
      exact ⟨a, hca, by simp [elemsAddrs, CShape.addrs]⟩

theorem detach_spec (h : Heap) (arr : Nat) (ar : CRec) (pre : List CShape) (e : CShape)
    (post : List CShape)
    (hlk : lookupH h arr = some ar)
    (hch : chainB h none ar.child (pre ++ e :: post) = true)
    (hnd : (arr :: elemsAddrs (pre ++ e :: post)).Nodup) :
    ∃ h', cJSON_DetachItemFromArray h arr pre.length = some (h', some (elemAddr e)) ∧
      lookupH h' arr = some { ar with child := if pre = [] then headAddr post else ar.child } ∧
      chainB h' none (if pre = [] then headAddr post else ar.child) (pre ++ post) = true ∧
      spellsB h' (some (elemAddr e)) e = true := by
  obtain ⟨p2, c2, hseg, hrest⟩ := chainB_append_ex h (e :: post) pre none ar.child hch
  cases e with
  | nil => simp [chainB] at hrest
  | node ae te vse kse cse nshe =>
  obtain ⟨hnshe, hc2, cr, hlc, hprev, htyp, hcvs, hcks, hcsp, hcnext⟩ :=
    chainB_cons_elim h p2 c2 ae te vse kse cse nshe post hrest
  subst hnshe hc2
  have hwn : walkNext h pre.length ar.child = some ae :=
    walkNext_seg h pre none ar.child p2 (some ae) hseg
  have hsplit : elemsAddrs (pre ++ CShape.node ae te vse kse cse .nil :: post) =
      elemsAddrs pre ++ ae :: (cse.addrs ++ elemsAddrs post) := by
    rw [elemsAddrs_append]
    simp [elemsAddrs, CShape.addrs]
  rw [List.nodup_cons, hsplit] at hnd
  obtain ⟨harrmem, hndD⟩ := hnd
  simp only [List.mem_append, List.mem_cons, not_or] at harrmem
  simp only [List.nodup_append, List.nodup_cons, List.mem_append, List.mem_cons,
    List.disjoint_left, not_or] at hndD
  obtain ⟨hndPre, ⟨⟨haecs, haepost⟩, hndCse, hndPost, hdisCP⟩, hpreDis⟩ := hndD
  obtain ⟨harrPre, harrAe, harrCse, harrPost⟩ := harrmem
  have hAeArr : ae ≠ arr := fun hh => harrAe hh.symm
  rcases List.eq_nil_or_concat pre with hpre | ⟨pre0, q, hpre⟩ <;> subst hpre
  · -- pre = []
    obtain ⟨hp2, hcc⟩ := chainSeg_nil_elim h none ar.child p2 (some ae) hseg
    subst hp2
    have harc : ar.child = some ae := hcc.symm
    cases post with
    | nil =>
      have hcrn : cr.next = none := chainB_nil_elim h (some ae) cr.next hcnext
      have haux1 : lookupH (updateH h arr { ar with child := none }) ae = some cr := by
        rw [lookupH_updateH_ne _ _ _ _ hAeArr, hlc]
      refine ⟨updateH (updateH h arr { ar with child := none }) ae
        { cr with prev := none, next := none }, ?_, ?_, ?_, ?_⟩
      · simp only [cJSON_DetachItemFromArray, List.length_nil, walkNext, hlk, hlc, hprev,
          hcrn, harc, if_true, elemAddr, haux1]
      · rw [lookupH_updateH_ne _ _ _ _ harrAe,
          lookupH_updateH_isSome _ _ _ (by rw [hlk]; rfl)]
        simp [headAddr]
      · simp [chainB, headAddr]
      · refine spellsB_intro _ ae te vse kse cse .nil { cr with prev := none, next := none }
          ?_ htyp hcvs hcks ?_ rfl
        · exact lookupH_updateH_isSome _ _ _ (by rw [haux1]; rfl)
        · exact spellsB_agree h _ cse cr.child hcsp (fun x hx => by
            rw [lookupH_updateH_ne _ _ _ _ (by intro hh; subst hh; exact haecs hx),
              lookupH_updateH_ne _ _ _ _ (by intro hh; subst hh; exact harrCse hx)])
    | cons p1 post2 =>
      cases p1 with
      | nil => simp [chainB] at hcnext
      | node a1 t1 vs1 ks1 cs1 nsh1 =>
      obtain ⟨hnsh1, hcn, r1, hl1, hp1, ht1, hvs1, hks1, hsp1, hrest1⟩ :=
        chainB_cons_elim h (some ae) cr.next a1 t1 vs1 ks1 cs1 nsh1 post2 hcnext
      subst hnsh1
      have ha1mem : a1 ∈ elemsAddrs (CShape.node a1 t1 vs1 ks1 cs1 .nil :: post2) := by
        simp [elemsAddrs, CShape.addrs]
      have hAeA1 : ae ≠ a1 := fun hh => haepost (hh ▸ ha1mem)
      have hArrA1 : arr ≠ a1 := fun hh => harrPost (hh ▸ ha1mem)
      have hsub1 : ∀ x, x ∈ cs1.addrs →
          x ∈ elemsAddrs (CShape.node a1 t1 vs1 ks1 cs1 .nil :: post2) := by
        intro x hx
        simp [elemsAddrs, CShape.addrs]
        exact Or.inr (Or.inl hx)
      have hsub2 : ∀ x, x ∈ elemsAddrs post2 →
          x ∈ elemsAddrs (CShape.node a1 t1 vs1 ks1 cs1 .nil :: post2) := by
        intro x hx
        simp [elemsAddrs, CShape.addrs]
        exact Or.inr (Or.inr hx)
      simp only [elemsAddrs, CShape.addrs, List.nodup_append, List.nodup_cons,
        List.mem_append, List.mem_cons, List.append_nil, not_or] at hndPost
      obtain ⟨⟨ha1cs1, hndCs1⟩, hndPost2, hdis12⟩ := hndPost
      have haux2a : lookupH (updateH h a1 { r1 with prev := none }) arr = some ar := by
        rw [lookupH_updateH_ne _ _ _ _ hArrA1, hlk]
      have haux2b : lookupH (updateH h a1 { r1 with prev := none }) ae = some cr := by
        rw [lookupH_updateH_ne _ _ _ _ hAeA1, hlc]
      have haux3 : lookupH (updateH (updateH h a1 { r1 with prev := none }) arr
          { ar with child := some a1 }) ae = some cr := by
        rw [lookupH_updateH_ne _ _ _ _ hAeArr, haux2b]
      have hkeep : ∀ x, x ≠ a1 → x ≠ arr → x ≠ ae →
          lookupH (updateH (updateH (updateH h a1 { r1 with prev := none }) arr
            { ar with child := some a1 }) ae { cr with prev := none, next := none }) x =
          lookupH h x := by
        intro x h1 h2 h3
        rw [lookupH_updateH_ne _ _ _ _ h3, lookupH_updateH_ne _ _ _ _ h2,
          lookupH_updateH_ne _ _ _ _ h1]
      refine ⟨updateH (updateH (updateH h a1 { r1 with prev := none }) arr
        { ar with child := some a1 }) ae { cr with prev := none, next := none },
        ?_, ?_, ?_, ?_⟩
      · simp only [cJSON_DetachItemFromArray, List.length_nil, walkNext, hlk, hlc, hprev,
          hcn, hl1, harc, if_true, elemAddr, haux2a, haux2b, haux3]
      · rw [lookupH_updateH_ne _ _ _ _ harrAe,
          lookupH_updateH_isSome _ _ _ (by rw [haux2a]; rfl)]
        simp [headAddr, elemAddr]
      · simp only [List.nil_append, reduceIte, headAddr, elemAddr]
        have hl1q : lookupH (updateH (updateH (updateH h a1 { r1 with prev := none }) arr
            { ar with child := some a1 }) ae { cr with prev := none, next := none }) a1 =
            some { r1 with prev := none } := by
          rw [lookupH_updateH_ne _ _ _ _ (Ne.symm hAeA1),
            lookupH_updateH_ne _ _ _ _ (Ne.symm hArrA1),
            lookupH_updateH_isSome _ _ _ (by rw [hl1]; rfl)]
        refine chainB_cons_intro _ none a1 t1 vs1 ks1 cs1 post2 { r1 with prev := none }
          hl1q rfl ht1 hvs1 hks1 ?_ ?_
        · exact spellsB_agree h _ cs1 r1.child hsp1 (fun x hx => hkeep x
            (by intro hh; subst hh; exact ha1cs1 hx)
            (by intro hh; subst hh; exact harrPost (hsub1 x hx))
            (by intro hh; subst hh; exact haepost (hsub1 x hx)))
        · exact chainB_agree h _ post2 (some a1) r1.next hrest1 (fun x hx => hkeep x
            (by intro hh; subst hh; exact hdis12 (by simp) hx)
            (by intro hh; subst hh; exact harrPost (hsub2 x hx))
            (by intro hh; subst hh; exact haepost (hsub2 x hx)))
      · refine spellsB_intro _ ae te vse kse cse .nil { cr with prev := none, next := none }
          ?_ htyp hcvs hcks ?_ rfl
        · exact lookupH_updateH_isSome _ _ _ (by rw [haux3]; rfl)
        · exact spellsB_agree h _ cse cr.child hcsp (fun x hx => hkeep x
            (by intro hh; subst hh; exact hdisCP hx ha1mem)
            (by intro hh; subst hh; exact harrCse hx)
            (by intro hh; subst hh; exact haecs hx))
  · -- pre = pre0 ++ [q]
    simp only [List.concat_eq_append] at hseg hwn hndPre harrPre hpreDis ⊢
    have hprene : pre0 ++ [q] ≠ ([] : List CShape) := by simp
    obtain ⟨pm, cm, hseg0, hsegq⟩ :=
      chainSeg_append_ex h [q] pre0 none ar.child p2 (some ae) hseg
    cases q with
    | nil => simp [chainSeg] at hsegq
    | node aq tq vsq ksq csq nshq =>
    obtain ⟨hnshq, hcm, rq, hlq, hpq, htq, hvsq, hksq, hspq, hsegnil⟩ :=
      chainSeg_cons_elim h pm cm p2 (some ae) aq tq vsq ksq csq nshq [] hsegq
    subst hnshq hcm
    obtain ⟨hp2q, hcnq⟩ := chainSeg_nil_elim h (some aq) rq.next p2 (some ae) hsegnil
    subst hp2q
    have hrqn : rq.next = some ae := hcnq.symm
    have haqmem : aq ∈ elemsAddrs (pre0 ++ [CShape.node aq tq vsq ksq csq .nil]) := by
      simp [elemsAddrs_append, elemsAddrs, CShape.addrs]
    have haqfacts := hpreDis haqmem
    have hAeAq : ae ≠ aq := fun hh => haqfacts.1 hh.symm
    have hArrAq : arr ≠ aq := fun hh => harrPre (hh ▸ haqmem)
    have hsubq : ∀ x, x ∈ csq.addrs →
        x ∈ elemsAddrs (pre0 ++ [CShape.node aq tq vsq ksq csq .nil]) := by
      intro x hx
      simp [elemsAddrs_append, elemsAddrs, CShape.addrs]
      exact Or.inr (Or.inr hx)
    have hsubp0 : ∀ x, x ∈ elemsAddrs pre0 →
        x ∈ elemsAddrs (pre0 ++ [CShape.node aq tq vsq ksq csq .nil]) := by
      intro x hx
      simp [elemsAddrs_append]
      exact Or.inl hx
    simp only [elemsAddrs_append, elemsAddrs, CShape.addrs, List.nodup_append,
      List.nodup_cons, List.mem_append, List.mem_cons, List.append_nil, not_or] at hndPre
    obtain ⟨hndPre0, ⟨haq_csq, hndCsq⟩, hdisP0Q⟩ := hndPre
    obtain ⟨a0, ha0, ha0mem⟩ := chainSeg_ne_nil_first h
      (pre0 ++ [CShape.node aq tq vsq ksq csq .nil]) none ar.child (some aq) (some ae)
      (by simp) hseg
    have hne : ar.child ≠ some ae := by
      rw [ha0]
      intro hh
      injection hh with hh2
      exact (hpreDis ha0mem).1 hh2
    cases post with
    | nil =>
      have hcrn : cr.next = none := chainB_nil_elim h (some ae) cr.next hcnext
      have haux1 : lookupH (updateH h aq { rq with next := none }) ae = some cr := by
        rw [lookupH_updateH_ne _ _ _ _ hAeAq, hlc]
      have haux2 : lookupH (updateH h aq { rq with next := none }) arr = some ar := by
        rw [lookupH_updateH_ne _ _ _ _ hArrAq, hlk]
      have hkeep : ∀ x, x ≠ aq → x ≠ ae →
          lookupH (updateH (updateH h aq { rq with next := none }) ae
            { cr with prev := none, next := none }) x = lookupH h x := by
        intro x h1 h3
        rw [lookupH_updateH_ne _ _ _ _ h3, lookupH_updateH_ne _ _ _ _ h1]
      refine ⟨updateH (updateH h aq { rq with next := none }) ae
        { cr with prev := none, next := none }, ?_, ?_, ?_, ?_⟩
      · simp only [cJSON_DetachItemFromArray, hlk, hwn, hlc, hprev, hcrn, hlq, haux1,
          haux2, if_neg hne, elemAddr]
      · rw [if_neg hprene, lookupH_updateH_ne _ _ _ _ harrAe,
          lookupH_updateH_ne _ _ _ _ hArrAq, hlk]
      · rw [if_neg hprene]
        simp only [List.append_nil]
        have hlq2 : lookupH (updateH (updateH h aq { rq with next := none }) ae
            { cr with prev := none, next := none }) aq = some { rq with next := none } := by
          rw [lookupH_updateH_ne _ _ _ _ (Ne.symm hAeAq),
            lookupH_updateH_isSome _ _ _ (by rw [hlq]; rfl)]
        refine chainB_compose _ [CShape.node aq tq vsq ksq csq .nil] pre0 none ar.child
          pm (some aq) ?_ ?_
        · exact chainSeg_agree h _ pre0 none ar.child pm (some aq) hseg0 (fun x hx =>
            hkeep x (fun hh => hdisP0Q hx (by simp [hh]))
              (fun hh => (hpreDis (hsubp0 x hx)).1 hh))
        · refine chainB_cons_intro _ pm aq tq vsq ksq csq [] { rq with next := none }
            hlq2 hpq htq hvsq hksq ?_ rfl
          exact spellsB_agree h _ csq rq.child hspq (fun x hx => hkeep x
            (by intro hh; subst hh; exact haq_csq hx)
            (by intro hh; subst hh; exact (hpreDis (hsubq x hx)).1 rfl))
      · refine spellsB_intro _ ae te vse kse cse .nil { cr with prev := none, next := none }
          ?_ htyp hcvs hcks ?_ rfl
        · exact lookupH_updateH_isSome _ _ _ (by rw [haux1]; rfl)
        · exact spellsB_agree h _ cse cr.child hcsp (fun x hx => hkeep x
            (by intro hh; subst hh; exact haqfacts.2.1 hx)
            (by intro hh; subst hh; exact haecs hx))
    | cons p1 post2 =>
      cases p1 with
      | nil => simp [chainB] at hcnext
      | node a1 t1 vs1 ks1 cs1 nsh1 =>
      obtain ⟨hnsh1, hcn, r1, hl1, hp1, ht1, hvs1, hks1, hsp1, hrest1⟩ :=
        chainB_cons_elim h (some ae) cr.next a1 t1 vs1 ks1 cs1 nsh1 post2 hcnext
      subst hnsh1
      have ha1mem : a1 ∈ elemsAddrs (CShape.node a1 t1 vs1 ks1 cs1 .nil :: post2) := by
        simp [elemsAddrs, CShape.addrs]
      have hAeA1 : ae ≠ a1 := fun hh => haepost (hh ▸ ha1mem)
      have hArrA1 : arr ≠ a1 := fun hh => harrPost (hh ▸ ha1mem)
      have hAqA1 : aq ≠ a1 := fun hh => haqfacts.2.2 (hh ▸ ha1mem)
      have hsub1 : ∀ x, x ∈ cs1.addrs →
          x ∈ elemsAddrs (CShape.node a1 t1 vs1 ks1 cs1 .nil :: post2) := by
        intro x hx
        simp [elemsAddrs, CShape.addrs]
        exact Or.inr (Or.inl hx)
      have hsub2 : ∀ x, x ∈ elemsAddrs post2 →
          x ∈ elemsAddrs (CShape.node a1 t1 vs1 ks1 cs1 .nil :: post2) := by
        intro x hx
        simp [elemsAddrs, CShape.addrs]
        exact Or.inr (Or.inr hx)
      simp only [elemsAddrs, CShape.addrs, List.nodup_append, List.nodup_cons,
        List.mem_append, List.mem_cons, List.append_nil, not_or] at hndPost
      obtain ⟨⟨ha1cs1, hndCs1⟩, hndPost2, hdis12⟩ := hndPost
      have haux1 : lookupH (updateH h aq { rq with next := some a1 }) ae = some cr := by
        rw [lookupH_updateH_ne _ _ _ _ hAeAq, hlc]
      have haux1b : lookupH (updateH h aq { rq with next := some a1 }) a1 = some r1 := by
        rw [lookupH_updateH_ne _ _ _ _ (Ne.symm hAqA1), hl1]
      have haux2 : lookupH (updateH (updateH h aq { rq with next := some a1 }) a1
          { r1 with prev := some aq }) arr = some ar := by
        rw [lookupH_updateH_ne _ _ _ _ hArrA1, lookupH_updateH_ne _ _ _ _ hArrAq, hlk]
      have haux3 : lookupH (updateH (updateH h aq { rq with next := some a1 }) a1
          { r1 with prev := some aq }) ae = some cr := by
        rw [lookupH_updateH_ne _ _ _ _ hAeA1, haux1]
      have hkeep : ∀ x, x ≠ aq → x ≠ a1 → x ≠ ae →
          lookupH (updateH (updateH (updateH h aq { rq with next := some a1 }) a1
            { r1 with prev := some aq }) ae { cr with prev := none, next := none }) x =
          lookupH h x := by
        intro x h1 h2 h3
        rw [lookupH_updateH_ne _ _ _ _ h3, lookupH_updateH_ne _ _ _ _ h2,
          lookupH_updateH_ne _ _ _ _ h1]
      refine ⟨updateH (updateH (updateH h aq { rq with next := some a1 }) a1
        { r1 with prev := some aq }) ae { cr with prev := none, next := none },
        ?_, ?_, ?_, ?_⟩
      · simp only [cJSON_DetachItemFromArray, hlk, hwn, hlc, hprev, hcn, hlq, haux1,
          haux1b, haux2, haux3, if_neg hne, elemAddr]
      · rw [if_neg hprene, lookupH_updateH_ne _ _ _ _ harrAe, haux2]
      · rw [if_neg hprene]
        have hassoc : (pre0 ++ [CShape.node aq tq vsq ksq csq .nil]) ++
            (CShape.node a1 t1 vs1 ks1 cs1 .nil :: post2) =
            pre0 ++ (CShape.node aq tq vsq ksq csq .nil ::
              CShape.node a1 t1 vs1 ks1 cs1 .nil :: post2) := by
          simp
        rw [hassoc]
        have hlq2 : lookupH (updateH (updateH (updateH h aq { rq with next := some a1 }) a1
            { r1 with prev := some aq }) ae { cr with prev := none, next := none }) aq =
            some { rq with next := some a1 } := by
          rw [lookupH_updateH_ne _ _ _ _ (Ne.symm hAeAq),
            lookupH_updateH_ne _ _ _ _ hAqA1,
            lookupH_updateH_isSome _ _ _ (by rw [hlq]; rfl)]
        have hl12 : lookupH (updateH (updateH (updateH h aq { rq with next := some a1 }) a1
            { r1 with prev := some aq }) ae { cr with prev := none, next := none }) a1 =
            some { r1 with prev := some aq } := by
          rw [lookupH_updateH_ne _ _ _ _ (Ne.symm hAeA1),
            lookupH_updateH_isSome _ _ _ (by rw [haux1b]; rfl)]
        refine chainB_compose _ (CShape.node aq tq vsq ksq csq .nil ::
          CShape.node a1 t1 vs1 ks1 cs1 .nil :: post2) pre0 none ar.child pm (some aq)
          ?_ ?_
        · exact chainSeg_agree h _ pre0 none ar.child pm (some aq) hseg0 (fun x hx =>
            hkeep x (fun hh => hdisP0Q hx (by simp [hh]))
              (fun hh => (hpreDis (hsubp0 x hx)).2.2 (hh ▸ ha1mem))
              (fun hh => (hpreDis (hsubp0 x hx)).1 hh))
        · refine chainB_cons_intro _ pm aq tq vsq ksq csq
            (CShape.node a1 t1 vs1 ks1 cs1 .nil :: post2) { rq with next := some a1 }
            hlq2 hpq htq hvsq hksq ?_ ?_
          · exact spellsB_agree h _ csq rq.child hspq (fun x hx => hkeep x
              (by intro hh; subst hh; exact haq_csq hx)
              (by intro hh; subst hh; exact (hpreDis (hsubq x hx)).2.2 ha1mem)
              (by intro hh; subst hh; exact (hpreDis (hsubq x hx)).1 rfl))
          · refine chainB_cons_intro _ (some aq) a1 t1 vs1 ks1 cs1 post2
              { r1 with prev := some aq } hl12 rfl ht1 hvs1 hks1 ?_ ?_
            · exact spellsB_agree h _ cs1 r1.child hsp1 (fun x hx => hkeep x
                (by intro hh; rw [hh] at hx; exact haqfacts.2.2 (hsub1 aq hx))
                (by intro hh; subst hh; exact ha1cs1 hx)
                (by intro hh; subst hh; exact haepost (hsub1 x hx)))
            · exact chainB_agree h _ post2 (some a1) r1.next hrest1 (fun x hx => hkeep x
                (by intro hh; rw [hh] at hx; exact haqfacts.2.2 (hsub2 aq hx))
                (by intro hh; subst hh; exact hdis12 (by simp) hx)
                (by intro hh; subst hh; exact haepost (hsub2 x hx)))
      · refine spellsB_intro _ ae te vse kse cse .nil { cr with prev := none, next := none }
          ?_ htyp hcvs hcks ?_ rfl
        · exact lookupH_updateH_isSome _ _ _ (by rw [haux3]; rfl)
        · exact spellsB_agree h _ cse cr.child hcsp (fun x hx => hkeep x
            (by intro hh; subst hh; exact haqfacts.2.1 hx)
            (by intro hh; subst hh; exact hdisCP hx ha1mem)
            (by intro hh; subst hh; exact haecs hx))

/-- **C10**: `cJSON_DeleteItemFromArray` (detach, then delete) at an index
within the child-list range removes and frees exactly the one child at that
index. Because the detach nulls the detached node's `prev` and `next`
links before the delete, the delete's forward-sibling cascade stops at the
detached node: the call returns, its node-free events are exactly the
addresses of the removed element's subtree (which no longer resolve), and
the remaining children stay in the container in their original relative
order with consistent `prev`/`next` links (and their subtrees intact). -/
theorem C10_deleteAt (fuel : Nat) (h : Heap) (arr : Nat) (ar : CRec)
    (pre : List CShape) (e : CShape) (post : List CShape)
    (hlk : lookupH h arr = some ar)
    (hch : chainB h none ar.child (pre ++ e :: post) = true)
    (hnd : (arr :: elemsAddrs (pre ++ e :: post)).Nodup)
    (hnr : e.noRef = true)
    (hf : 2 * e.scount + 1 ≤ fuel) :
    ∃ h' evs,
      cJSON_DeleteItemFromArray fuel h arr pre.length = some (h', evs) ∧
      (nodeEvents evs).Perm e.addrs ∧
      (∀ x ∈ e.addrs, lookupH h' x = none) ∧
      lookupH h' arr = some { ar with child := if pre = [] then headAddr post else ar.child } ∧
      chainB h' none (if pre = [] then headAddr post else ar.child) (pre ++ post) = true := by
  obtain ⟨h1, hdet, harr1, hch1, hsp1⟩ := detach_spec h arr ar pre e post hlk hch hnd
  obtain ⟨harrm, hndall⟩ := List.nodup_cons.mp hnd
  rw [elemsAddrs_append] at hndall
  have hndall2 : (elemsAddrs pre ++ (e.addrs ++ elemsAddrs post)).Nodup := hndall
  obtain ⟨hndP, hndEP, hdisj1⟩ := List.nodup_append.mp hndall2
  obtain ⟨hndE, hndPo, hdisj2⟩ := List.nodup_append.mp hndEP
  have hsubE : ∀ x ∈ e.addrs, x ∈ elemsAddrs (pre ++ e :: post) := by
    intro x hx
    rw [elemsAddrs_append]
    exact List.mem_append.mpr (Or.inr (List.mem_append.mpr (Or.inl hx)))
  have harrE : arr ∉ e.addrs := fun hx => harrm (hsubE _ hx)
  have hppE : ∀ x ∈ elemsAddrs (pre ++ post), x ∉ e.addrs := by
    intro x hx hx2
    rw [elemsAddrs_append] at hx
    rcases List.mem_append.mp hx with hx | hx
    · exact hdisj1 hx (List.mem_append.mpr (Or.inl hx2))
    · exact hdisj2 hx2 hx
  have hdel := delete_h_spec e fuel h1 (some (elemAddr e)) hsp1 hndE hnr hf
  refine ⟨removeList h1 e.addrs, e.events, ?_, nodeEvents_events e, ?_, ?_, ?_⟩
  · simp only [cJSON_DeleteItemFromArray, hdet, hdel]
  · exact fun x hx => lookupH_removeList_mem _ _ _ hx
  · rw [lookupH_removeList _ _ _ harrE, harr1]
  · exact chainB_agree h1 _ (pre ++ post) none _ hch1
      (fun x hx => lookupH_removeList _ _ _ (hppE x hx))

/-- C10 witness: an array node at address 10 whose children 1 → 2 → 3 are
number nodes; deleting index 1 frees exactly node 2, and nodes 1 and 3
remain linked 1 → 3 in order. -/
theorem C10_deleteAt_witness :
    chainB [(10, ⟨none, none, some 1, cJSON_Array, none, none⟩),
        (1, ⟨some 2, none, none, cJSON_Number, none, none⟩),
        (2, ⟨some 3, some 1, none, cJSON_Number, none, none⟩),
        (3, ⟨none, some 2, none, cJSON_Number, none, none⟩)] none
      (some 1)
      ([CShape.node 1 cJSON_Number none none .nil .nil] ++
        CShape.node 2 cJSON_Number none none .nil .nil ::
        [CShape.node 3 cJSON_Number none none .nil .nil]) = true ∧
    ∃ h' evs,
      cJSON_DeleteItemFromArray 3
        [(10, ⟨none, none, some 1, cJSON_Array, none, none⟩),
         (1, ⟨some 2, none, none, cJSON_Number, none, none⟩),
         (2, ⟨some 3, some 1, none, cJSON_Number, none, none⟩),
         (3, ⟨none, some 2, none, cJSON_Number, none, none⟩)] 10
        [CShape.node 1 cJSON_Number none none .nil .nil].length = some (h', evs) ∧
      (nodeEvents evs).Perm (CShape.node 2 cJSON_Number none none .nil .nil).addrs ∧
      (∀ x ∈ (CShape.node 2 cJSON_Number none none .nil .nil).addrs,
        lookupH h' x = none) ∧
      lookupH h' 10 = some { (⟨none, none, some 1, cJSON_Array, none, none⟩ : CRec) with
        child := if [CShape.node 1 cJSON_Number none none .nil .nil] = ([] : List CShape)
          then headAddr [CShape.node 3 cJSON_Number none none .nil .nil]
          else (⟨none, none, some 1, cJSON_Array, none, none⟩ : CRec).child } ∧
      chainB h' none
        (if [CShape.node 1 cJSON_Number none none .nil .nil] = ([] : List CShape)
          then headAddr [CShape.node 3 cJSON_Number none none .nil .nil]
          else (⟨none, none, some 1, cJSON_Array, none, none⟩ : CRec).child)
        ([CShape.node 1 cJSON_Number none none .nil .nil] ++
          [CShape.node 3 cJSON_Number none none .nil .nil]) = true :=
  ⟨by decide,
   C10_deleteAt 3
     [(10, ⟨none, none, some 1, cJSON_Array, none, none⟩),
      (1, ⟨some 2, none, none, cJSON_Number, none, none⟩),
      (2, ⟨some 3, some 1, none, cJSON_Number, none, none⟩),
      (3, ⟨none, some 2, none, cJSON_Number, none, none⟩)] 10
     ⟨none, none, some 1, cJSON_Array, none, none⟩
     [CShape.node 1 cJSON_Number none none .nil .nil]
     (CShape.node 2 cJSON_Number none none .nil .nil)
     [CShape.node 3 cJSON_Number none none .nil .nil]
     (by decide) (by decide) (by decide) (by decide) (by decide)⟩

end PPB
